import Mathlib

/-
Shallow embedding of the pyGeo geometry engine (pyGeo2.py): edge-connectivity
discovery, the global control-point indexer, knot-vector propagation, the
reference-axis update pipeline and the complex-step derivative driver.
External collaborators (the pySpline surface/curve library and the geo_utils
helpers, which are not part of the embedded source file) are modelled from the
specification and are marked as such in their doc comments.
-/

namespace PyGeo

/-! ### Surfaces and edge records -/

/-- Control-point grid dimensions of one patch (pySpline surface handle). -/
structure Surf where
  Nctlu : Nat
  Nctlv : Nat
deriving DecidableEq

/-- One row of the edge-connectivity table, as built by `edge.__init__`
(pyGeo2.py lines 2294-2332).  `type = 0` is a free/mirror edge, `type = 1` a
stitched (joined) edge; `f2 = e2 = -1` for free edges. -/
structure EdgeRec where
  type : Int
  f1 : Nat
  e1 : Nat
  dof : Nat
  cont : Int
  dir : Int
  dg : Int
  Nctl : Nat
  f2 : Int
  e2 : Int
deriving DecidableEq

instance : Inhabited EdgeRec := ⟨⟨0, 0, 0, 3, -1, 1, -1, 10, -1, -1⟩⟩

/-- Modelled from the spec: `flipEdge` of the missing geo_utils module flips an
edge index to the opposite edge of the same face (0 and 1 swap, 2 and 3 swap). -/
def flipEdge (e : Nat) : Nat :=
  if e = 0 then 1 else if e = 1 then 0 else if e = 2 then 3 else if e = 3 then 2 else e

/-- Modelled from the spec: the outcome of `test_edge` of the missing geo_utils
module for a pair of patches and a pair of edge indices — a coincidence flag and
a direction flag (−1 when the edges coincide reversed).  The geometric sampling
itself is abstracted into this function. -/
abbrev TestEdge := Nat → Nat → Nat → Nat → Bool × Int

/-! ### calcEdgeConnectivity (pyGeo2.py lines 638-847) -/

/-- An entry of the raw `e_con` list: `[[isurf,i],[jpatch,j],cont_flag,dir_flag,-1]`. -/
structure RawJoined where
  a : Nat × Nat
  b : Nat × Nat
  cont : Int
  dir : Int
deriving DecidableEq

/-- An element of the combined `edges = e_con + mirrored_edges` list. -/
inductive RawEdge where
  | joined (r : RawJoined)
  | mirror (a : Nat × Nat)
deriving DecidableEq

instance : Inhabited RawEdge := ⟨.mirror (0, 0)⟩

/-- The `(face,edge)` pair stored at position `order` (0 or 1) of a record;
mirrored records only carry one pair. -/
def RawEdge.slot : RawEdge → Nat → Nat × Nat
  | .joined r, o => if o = 0 then r.a else r.b
  | .mirror a, _ => a

def RawEdge.isMirror : RawEdge → Bool
  | .joined _ => false
  | .mirror _ => true

/-- The pairwise coincidence scan of `calcEdgeConnectivity` (lines 658-674):
every coincident `(isurf,i)/(jpatch,j)` pair with `isurf < jpatch` becomes one
`e_con` entry with `cont_flag = 0` and the reported direction. -/
def eConOf (te : TestEdge) (nSurf : Nat) : List RawJoined :=
  (List.range nSurf).flatMap fun isurf =>
    (List.range' (isurf + 1) (nSurf - (isurf + 1))).flatMap fun jpatch =>
      (List.range 4).flatMap fun i =>
        (List.range 4).flatMap fun j =>
          if (te isurf jpatch i j).1 then
            [⟨(isurf, i), (jpatch, j), 0, (te isurf jpatch i j).2⟩]
          else []

/-- The flattened `edge_list` of the joined entries (lines 682-685). -/
def joinedEdgeList (eCon : List RawJoined) : List (Nat × Nat) :=
  eCon.flatMap fun r => [r.a, r.b]

/-- All `(face,edge)` pairs, in the scan order of lines 688-689. -/
def allFE (nSurf : Nat) : List (Nat × Nat) :=
  (List.range nSurf).flatMap fun i => (List.range 4).map fun j => (i, j)

/-- The mirrored-edge scan (lines 687-696): every `(face,edge)` pair not yet in
`edge_list` becomes a mirrored edge and is appended to `edge_list` as well. -/
def mirroredOf (jel : List (Nat × Nat)) (nSurf : Nat) : List (Nat × Nat) :=
  (allFE nSurf).foldl
    (fun acc e => if e ∈ jel ∨ e ∈ acc then acc else acc ++ [e]) []

/-- `_getConIndex` (lines 1210-1217): position of a `(face,edge)` pair in
`edge_list`, converted to a record index and an `order` (which slot matched). -/
def getConIndex (edge_list : List (Nat × Nat)) (e : Nat × Nat) (nJoined : Nat) :
    Nat × Nat :=
  let i := edge_list.indexOf e
  if i < nJoined then (i / 2, i % 2) else (nJoined / 2 + (i - nJoined), 0)

/-- One driving-group propagation chain (the two `while cont2` loops of lines
743-777 and 791-816; both set the group id of each newly reached record, toggle
the continuation slot and stop at mirrored or already-assigned records).  The
fuel argument bounds the number of iterations; each iteration assigns a group
to a previously unassigned record, so `edges.length` fuel suffices. -/
def propLoop (edges : List RawEdge) (edge_list : List (Nat × Nat)) (nJoined : Nat)
    (dgc : Int) : Nat → Nat → Nat → List Int → List Int
  | 0, _, _, dgs => dgs
  | fuel + 1, index, order, dgs =>
    let cur := (edges.getD index default).slot order
    let nxt := (cur.1, flipEdge cur.2)
    let ni := (getConIndex edge_list nxt nJoined).1
    let no := (getConIndex edge_list nxt nJoined).2
    if dgs.getD ni 0 ≠ -1 then dgs
    else
      let no2 := if no = 0 then 1 else 0
      let dgs2 := dgs.set ni dgc
      if (edges.getD ni default).isMirror then dgs2
      else propLoop edges edge_list nJoined dgc fuel ni no2 dgs2

/-- The driving-group assignment loop (lines 707-818): scan all records; each
unassigned record opens a new group, the opposite edge of its first face is
assigned to the group unconditionally, and the group is propagated along both
chains. -/
def assignDG (edges : List RawEdge) (edge_list : List (Nat × Nat)) (nJoined : Nat) :
    List Nat → Int → List Int → List Int
  | [], _, dgs => dgs
  | i :: rest, dgc, dgs =>
    if dgs.getD i 0 = -1 then
      let dgc2 := dgc + 1
      let dgs1 := dgs.set i dgc2
      let e0 := (edges.getD i default).slot 0
      let fi := (getConIndex edge_list (e0.1, flipEdge e0.2) nJoined).1
      let dgs2 := dgs1.set fi dgc2
      let dgs3 :=
        if (edges.getD i default).isMirror then dgs2
        else propLoop edges edge_list nJoined dgc2 (edges.length + 1) i 1 dgs2
      let dgs4 :=
        if (edges.getD fi default).isMirror then dgs3
        else propLoop edges edge_list nJoined dgc2 (edges.length + 1) fi 1 dgs3
      assignDG edges edge_list nJoined rest dgc2 dgs4
    else assignDG edges edge_list nJoined rest dgc dgs

/-- The edge record built for a joined `e_con` entry (lines 823-828 together
with `edge.__init__`): `type = 1`, `dof = 7`, `Nctl = 10` (placeholder). -/
def joinedRec (r : RawJoined) (dg : Int) : EdgeRec :=
  { type := 1, f1 := r.a.1, e1 := r.a.2, dof := 7, cont := r.cont, dir := r.dir,
    dg := dg, Nctl := 10, f2 := (r.b.1 : Int), e2 := (r.b.2 : Int) }

/-- The edge record built for a mirrored entry (lines 829-833 together with
`edge.__init__`): `type = 0`, `dof = 3`, `cont = -1`, `dir = 1`, `f2 = e2 = -1`. -/
def mirrorRec (a : Nat × Nat) (dg : Int) : EdgeRec :=
  { type := 0, f1 := a.1, e1 := a.2, dof := 3, cont := -1, dir := 1,
    dg := dg, Nctl := 10, f2 := -1, e2 := -1 }

/-- The driving-group ids computed by `calcEdgeConnectivity`, indexed like the
combined `edges = e_con + mirrored_edges` list. -/
def calcConDGs (te : TestEdge) (nSurf : Nat) : List Int :=
  let eCon := eConOf te nSurf
  let jel := joinedEdgeList eCon
  let mirrored := mirroredOf jel nSurf
  let nJoined := 2 * eCon.length
  let edges := eCon.map RawEdge.joined ++ mirrored.map RawEdge.mirror
  let edge_list := jel ++ mirrored
  assignDG edges edge_list nJoined (List.range edges.length) (-1)
    (List.replicate edges.length (-1))

/-- `calcEdgeConnectivity` (lines 638-847) without the overwrite prompt:
coincidence scan, mirrored-edge classification, driving-group propagation and
construction of the final connectivity table. -/
def calcEdgeConnectivity (te : TestEdge) (nSurf : Nat) : List EdgeRec :=
  ((List.range (eConOf te nSurf).length).zip (eConOf te nSurf)).map
    (fun p => joinedRec p.2 ((calcConDGs te nSurf).getD p.1 0)) ++
  ((List.range (mirroredOf (joinedEdgeList (eConOf te nSurf)) nSurf).length).zip
      (mirroredOf (joinedEdgeList (eConOf te nSurf)) nSurf)).map
    (fun p => mirrorRec p.2
      ((calcConDGs te nSurf).getD ((eConOf te nSurf).length + p.1) 0))

/-- The overwrite gate of `calcEdgeConnectivity` (lines 642-649): when a
connectivity table already exists the user is prompted interactively; the reply
"0" aborts (the old table is kept), any other reply recomputes. -/
def calcEdgeConnectivityRun (te : TestEdge) (nSurf : Nat)
    (prev : Option (List EdgeRec)) (ans : String) : Option (List EdgeRec) :=
  if prev.isSome ∧ ans = "0" then prev
  else some (calcEdgeConnectivity te nSurf)

/-! ### The global indexer `_setEdgeConnectivity` (pyGeo2.py lines 864-1152) -/

/-- The mutable state built up by `_setEdgeConnectivity`: the running DOF
counter, the list of alias lists (`global_coef`), the per-surface
`globalCtlIndex` grids, and the most recent value assigned to the local
variable `patchID` (which the Node 2 corner branch reads stale because of the
`patchiD` typo on line 1059). -/
structure GIState where
  counter : Nat
  global_coef : List (List (Nat × Nat × Nat))
  gIdx : Nat → Nat → Nat → Nat
  lastPatchID : Option Nat

def GIState.init : GIState := ⟨0, [], fun _ _ _ => 0, none⟩

instance : Inhabited GIState := ⟨GIState.init⟩

/-- `Ncoef` is the final counter value (line 1142). -/
def GIState.Ncoef (st : GIState) : Nat := st.counter

/-- `_findConIndex` (lines 849-862): scan the table for the first record whose
first or second member is `(isurf,edge)`; the boolean is the master flag (the
pair matched as the record's first member).  `none` models the `sys.exit(1)`
taken when the edge is missing. -/
def findConIndex : List EdgeRec → Nat → Nat → Option (EdgeRec × Bool)
  | [], _, _ => none
  | r :: rest, isurf, e =>
    if r.f1 = isurf ∧ r.e1 = e then some (r, true)
    else if r.f2 = (isurf : Int) ∧ r.e2 = (e : Int) then some (r, false)
    else findConIndex rest isurf e

/-- Modelled from the spec: `getGlobalIndexEdge` of the external pySpline
surface - the global index stored at position `idx` along edge `e` of the
master patch, with the index reversed when the direction flag is −1. -/
def getGlobalIndexEdge (su : Surf) (g : Nat → Nat → Nat) (e idx : Nat) (dir : Int) :
    Nat :=
  let N := if e = 0 ∨ e = 1 then su.Nctlu else su.Nctlv
  let k := if dir = 1 then idx else N - 1 - idx
  if e = 0 then g k 0
  else if e = 1 then g k (su.Nctlv - 1)
  else if e = 2 then g 0 k
  else g (su.Nctlu - 1) k

/-- Pointwise update of a `globalCtlIndex` grid family. -/
def setGIdx (g : Nat → Nat → Nat → Nat) (p i j v : Nat) : Nat → Nat → Nat → Nat :=
  fun p' i' j' => if p' = p ∧ i' = i ∧ j' = j then v else g p' i' j'

/-- `global_coef[g_index].append(...)`: append one alias to the entry at a
given position. -/
def appendAt (gc : List (List (Nat × Nat × Nat))) (k : Nat) (c : Nat × Nat × Nat) :
    List (List (Nat × Nat × Nat)) :=
  gc.set k (gc.getD k [] ++ [c])

/-- A master allocation (e.g. lines 892-895): a fresh DOF index, a fresh
single-alias entry, and the grid cell recorded as master. -/
def allocMaster (st : GIState) (c : Nat × Nat × Nat) : GIState :=
  { counter := st.counter + 1,
    global_coef := st.global_coef ++ [[c]],
    gIdx := setGIdx st.gIdx c.1 c.2.1 c.2.2 st.counter,
    lastPatchID := st.lastPatchID }

/-- The common body of every slave branch: compute `g_index` through the master
record, append the alias and store the index in the grid. -/
def appendAlias (st : GIState) (g : Nat) (c : Nat × Nat × Nat) : GIState :=
  { st with global_coef := appendAt st.global_coef g c,
            gIdx := setGIdx st.gIdx c.1 c.2.1 c.2.2 g }

/-- A slave resolution through record `r` (e.g. lines 909-917): `patchID`,
`edge` and `dir` are read from the record's first member and the local
`patchID` variable is (re)assigned. -/
def resolveSlave (surfs : List Surf) (st : GIState) (r : EdgeRec) (idx : Nat)
    (c : Nat × Nat × Nat) : GIState :=
  let g := getGlobalIndexEdge (surfs.getD r.f1 ⟨0, 0⟩) (st.gIdx r.f1) r.e1 idx r.dir
  { appendAlias st g c with lastPatchID := some r.f1 }

/-- The buggy Node 2 slave branch (lines 1058-1065): line 1059 assigns the
misspelled `patchiD`, so line 1062 reads the stale `patchID` value `p` from an
earlier slave branch; `edge` and `dir` still come from the Node 2 record `r`,
and `patchID` is not reassigned. -/
def resolveSlaveStale (surfs : List Surf) (st : GIState) (p : Nat) (r : EdgeRec)
    (idx : Nat) (c : Nat × Nat × Nat) : GIState :=
  let g := getGlobalIndexEdge (surfs.getD p ⟨0, 0⟩) (st.gIdx p) r.e1 idx r.dir
  appendAlias st g c

/-- The per-cell classification of `_setEdgeConnectivity` (lines 887-1108):
interior cells allocate; edge cells and corner cells consult the connectivity
table and either allocate (master) or alias (slave).  `none` models the
`sys.exit(1)` of `_findConIndex` and the `NameError` raised in the Node 2
branch when `patchID` has never been assigned. -/
def processCell (surfs : List Surf) (con : List EdgeRec) (isurf i j : Nat)
    (st : GIState) : Option GIState :=
  let c : Nat × Nat × Nat := (isurf, i, j)
  let su := surfs.getD isurf ⟨0, 0⟩
  let Nu := su.Nctlu
  let Nv := su.Nctlv
  if 0 < i ∧ i < Nu - 1 ∧ 0 < j ∧ j < Nv - 1 then
    some (allocMaster st c)
  else if 0 < i ∧ i < Nu - 1 ∧ j = 0 then
    match findConIndex con isurf 0 with
    | none => none
    | some (r, m) =>
      if m then some (allocMaster st c) else some (resolveSlave surfs st r i c)
  else if 0 < i ∧ i < Nu - 1 ∧ j = Nv - 1 then
    match findConIndex con isurf 1 with
    | none => none
    | some (r, m) =>
      if m then some (allocMaster st c) else some (resolveSlave surfs st r i c)
  else if i = 0 ∧ 0 < j ∧ j < Nv - 1 then
    match findConIndex con isurf 2 with
    | none => none
    | some (r, m) =>
      if m then some (allocMaster st c) else some (resolveSlave surfs st r j c)
  else if i = Nu - 1 ∧ 0 < j ∧ j < Nv - 1 then
    match findConIndex con isurf 3 with
    | none => none
    | some (r, m) =>
      if m then some (allocMaster st c) else some (resolveSlave surfs st r j c)
  else if i = 0 ∧ j = 0 then
    match findConIndex con isurf 0, findConIndex con isurf 2 with
    | some (r1, m1), some (r2, m2) =>
      if m1 ∧ m2 then some (allocMaster st c)
      else if ¬ m1 then some (resolveSlave surfs st r1 0 c)
      else some (resolveSlave surfs st r2 0 c)
    | _, _ => none
  else if i = Nu - 1 ∧ j = 0 then
    match findConIndex con isurf 0, findConIndex con isurf 3 with
    | some (r1, m1), some (r2, m2) =>
      if m1 ∧ m2 then some (allocMaster st c)
      else if ¬ m1 then some (resolveSlave surfs st r1 (Nu - 1) c)
      else some (resolveSlave surfs st r2 0 c)
    | _, _ => none
  else if i = 0 ∧ j = Nv - 1 then
    match findConIndex con isurf 1, findConIndex con isurf 2 with
    | some (r1, m1), some (r2, m2) =>
      if m1 ∧ m2 then some (allocMaster st c)
      else if ¬ m1 then
        match st.lastPatchID with
        | none => none
        | some p => some (resolveSlaveStale surfs st p r1 0 c)
      else some (resolveSlave surfs st r2 (Nv - 1) c)
    | _, _ => none
  else if i = Nu - 1 ∧ j = Nv - 1 then
    match findConIndex con isurf 1, findConIndex con isurf 3 with
    | some (r1, m1), some (r2, m2) =>
      if m1 ∧ m2 then some (allocMaster st c)
      else if ¬ m1 then some (resolveSlave surfs st r1 (Nu - 1) c)
      else some (resolveSlave surfs st r2 (Nv - 1) c)
    | _, _ => none
  else some st

/-- The cells of one patch in the loop order of lines 887-888 (`i` outer, `j`
inner). -/
def surfCells (surfs : List Surf) (isurf : Nat) : List (Nat × Nat × Nat) :=
  (List.range (surfs.getD isurf ⟨0, 0⟩).Nctlu).flatMap fun i =>
    (List.range (surfs.getD isurf ⟨0, 0⟩).Nctlv).map fun j => (isurf, i, j)

def processCells (surfs : List Surf) (con : List EdgeRec) :
    List (Nat × Nat × Nat) → GIState → Option GIState
  | [], st => some st
  | c :: l, st =>
    match processCell surfs con c.1 c.2.1 c.2.2 st with
    | none => none
    | some st1 => processCells surfs con l st1

def processPatches (surfs : List Surf) (con : List EdgeRec) :
    List Nat → GIState → Option GIState
  | [], st => some st
  | p :: l, st =>
    match processCells surfs con (surfCells surfs p) st with
    | none => none
    | some st1 => processPatches surfs con l st1

/-- `_setEdgeConnectivity` (lines 864-1152), restricted to the fields the
invariants are about: the DOF counter, `global_coef` and the per-surface
`globalCtlIndex` grids. -/
def setEdgeConnectivity (surfs : List Surf) (con : List EdgeRec) : Option GIState :=
  processPatches surfs con (List.range surfs.length) GIState.init

/-! ### Validity of a connectivity table and counting helpers -/

/-- Number of control points along edge `e` of patch `f`. -/
def edgeLen (surfs : List Surf) (f e : Nat) : Nat :=
  if e = 0 ∨ e = 1 then (surfs.getD f ⟨0, 0⟩).Nctlu else (surfs.getD f ⟨0, 0⟩).Nctlv

/-- A valid connectivity table: the shape guaranteed by `calcEdgeConnectivity`
for non-degenerate patches — every face index in range, free records carry the
`-1` sentinels, joined records list the lower-numbered (already processed)
patch first and join edges of equal control-point count. -/
def ValidCon (surfs : List Surf) (con : List EdgeRec) : Prop :=
  (∀ su ∈ surfs, 1 ≤ su.Nctlu ∧ 1 ≤ su.Nctlv) ∧
  ∀ r ∈ con, r.f1 < surfs.length ∧ (r.type = 0 ∨ r.type = 1) ∧
    (r.type = 0 → r.f2 = -1) ∧
    (r.type = 1 → (r.f1 : Int) < r.f2 ∧ r.f2 < (surfs.length : Int) ∧
      edgeLen surfs r.f1 r.e1 = edgeLen surfs r.f2.toNat r.e2.toNat)

instance (surfs : List Surf) (con : List EdgeRec) : Decidable (ValidCon surfs con) :=
  inferInstanceAs (Decidable (_ ∧ _))

/-- Number of `global_coef` entries that contain a given alias. -/
def containCount (gc : List (List (Nat × Nat × Nat))) (c : Nat × Nat × Nat) : Nat :=
  gc.countP (fun e => decide (c ∈ e))

/-- Total number of occurrences of an alias across all entries. -/
def cellCount (gc : List (List (Nat × Nat × Nat))) (c : Nat × Nat × Nat) : Nat :=
  (gc.map (fun e => e.count c)).sum

/-- An edge record references `(face,edge)` as its first member (joined first
member or free record) or as the second member of a joined record. -/
def referencesFE (r : EdgeRec) (f e : Nat) : Prop :=
  (r.f1 = f ∧ r.e1 = e) ∨ (r.type = 1 ∧ r.f2 = (f : Int) ∧ r.e2 = (e : Int))

instance (r : EdgeRec) (f e : Nat) : Decidable (referencesFE r f e) :=
  inferInstanceAs (Decidable (_ ∨ _))

/-- Number of records of a table referencing `(face,edge)`. -/
def refCount (con : List EdgeRec) (f e : Nat) : Nat :=
  con.countP (fun r => decide (referencesFE r f e))

/-! ### Connectivity table serialization (writeEdgeConnectivity /
readEdgeConnectivity / edge.write_info, pyGeo2.py lines 1167-1208, 2294-2341) -/

/-- The eleven numbers written by `edge.write_info` (lines 2334-2341), in the
order of the format string: connection number, `f1`, `e1`, `type`, `dof`,
`cont`, `dir`, `dg`, `Nctl`, `f2`, `e2`. -/
def write_info (i : Nat) (r : EdgeRec) : List Int :=
  [(i : Int), (r.f1 : Int), (r.e1 : Int), r.type, (r.dof : Int), r.cont, r.dir,
   r.dg, (r.Nctl : Int), r.f2, r.e2]

/-- `edge.__init__` (lines 2294-2332): parse one row of numbers.  For a free
record (`type = 0`) only `dof` is read back and `cont`, `dir`, `f2`, `e2` are
reset to their sentinels; for a stitched record `dof` is hard-coded to 7. -/
def parseEdge (aux : List Int) : EdgeRec :=
  let t := aux.getD 3 0
  let f1 := (aux.getD 1 0).toNat
  let e1 := (aux.getD 2 0).toNat
  let dg := aux.getD 7 0
  let nctl := (aux.getD 8 0).toNat
  if t = 0 then
    { type := 0, f1 := f1, e1 := e1, dof := (aux.getD 4 0).toNat, cont := -1,
      dir := 1, dg := dg, Nctl := nctl, f2 := -1, e2 := -1 }
  else
    { type := t, f1 := f1, e1 := e1, dof := 7, cont := aux.getD 5 0,
      dir := aux.getD 6 0, dg := dg, Nctl := nctl, f2 := aux.getD 9 0,
      e2 := aux.getD 10 0 }

/-- `writeEdgeConnectivity` (lines 1167-1179): a header row followed by one
`write_info` row per record.  A file is modelled as the list of the numeric
tokens of each line. -/
def writeEdgeConnectivity (con : List EdgeRec) : List (List Int) :=
  [] :: ((List.range con.length).zip con).map (fun p => write_info p.1 p.2)

/-- The parsing part of `readEdgeConnectivity` (lines 1192-1203): skip the
header line and parse every remaining row. -/
def readEdgeConnectivity (file : List (List Int)) : List EdgeRec :=
  (file.drop 1).map parseEdge

/-- The overwrite gate of `readEdgeConnectivity` (lines 1184-1191), interactive
like the one of `calcEdgeConnectivity`. -/
def readEdgeConnectivityRun (file : List (List Int))
    (prev : Option (List EdgeRec)) (ans : String) : Option (List EdgeRec) :=
  if prev.isSome ∧ ans = "0" then prev
  else some (readEdgeConnectivity file)

/-- The record invariant established by `edge.__init__`: free records carry the
sentinel fields, stitched records carry `dof = 7`. -/
def WfEdge (r : EdgeRec) : Prop :=
  (r.type = 0 ∧ r.cont = -1 ∧ r.dir = 1 ∧ r.f2 = -1 ∧ r.e2 = -1) ∨
  (r.type = 1 ∧ r.dof = 7)

instance (r : EdgeRec) : Decidable (WfEdge r) := inferInstanceAs (Decidable (_ ∨ _))

/-! ### propagateKnotVectors (pyGeo2.py lines 1219-1308) -/

/-- Knot-vector view of a surface: the `tu` and `tv` knot vectors. -/
structure KSurf where
  tu : List ℚ
  tv : List ℚ
deriving DecidableEq

instance : Inhabited KSurf := ⟨⟨[], []⟩⟩

/-- Python list indexing: negative indices count from the end. -/
def pyIdx (n : Nat) (i : Int) : Nat :=
  if 0 ≤ i then i.toNat else n - i.natAbs

/-- The design-group bucketing loop (lines 1224-1233): a record whose `dg`
exceeds the running counter opens a new bucket, every other record is appended
to the bucket at position `dg`. -/
def buildGroups (con : List EdgeRec) : List (List EdgeRec) :=
  (con.foldl
    (fun acc r =>
      if r.dg > acc.2 then (acc.1 ++ [[r]], acc.2 + 1)
      else (acc.1.set (pyIdx acc.1.length r.dg)
        ((acc.1.getD (pyIdx acc.1.length r.dg) []) ++ [r]), acc.2))
    ([], -1)).1

/-- The averaged first half used by the knot-vector symmetrization:
`0.5*(knot_vec[0:mid] + (1-knot_vec[cut:])[::-1])`. -/
def symBeg (kv : List ℚ) (mid cut : Nat) : List ℚ :=
  List.zipWith (fun a b => (a + b) / 2) (kv.take mid)
    ((kv.drop cut).map (fun t => 1 - t)).reverse

/-- The knot-vector symmetrization (lines 1258-1275): average the first half
against the reflected complement of the second half and rebuild both halves;
for an odd length the middle entry is left as it is. -/
def symKnot (kv : List ℚ) : List ℚ :=
  if kv.length % 2 = 1 then
    symBeg kv ((kv.length - 1) / 2) ((kv.length - 1) / 2 + 1) ++
      [kv.getD ((kv.length - 1) / 2) 0] ++
      ((symBeg kv ((kv.length - 1) / 2) ((kv.length - 1) / 2 + 1)).map
        (fun t => 1 - t)).reverse
  else
    symBeg kv (kv.length / 2) (kv.length / 2) ++
      ((symBeg kv (kv.length / 2) (kv.length / 2)).map (fun t => 1 - t)).reverse

/-- Whether any member of a design group has reversed orientation (lines
1241-1248). -/
def groupSymmetric (g : List EdgeRec) : Bool :=
  g.any (fun r => r.dir = -1)

/-- The knot vector of the first member's edge of a design group (lines
1250-1256): `tu` of the first face for a u-edge, `tv` otherwise. -/
def groupFirstKnot (surfs : List KSurf) (g : List EdgeRec) : List ℚ :=
  if (g.getD 0 default).e1 = 0 ∨ (g.getD 0 default).e1 = 1 then
    (surfs.getD (g.getD 0 default).f1 default).tu
  else (surfs.getD (g.getD 0 default).f1 default).tv

/-- The shared knot vector of a design group (lines 1250-1275): the knot
vector of the first member's edge, symmetrized when the group contains a
reversed edge. -/
def groupKnotVec (surfs : List KSurf) (g : List EdgeRec) : List ℚ :=
  if groupSymmetric g then symKnot (groupFirstKnot surfs g)
  else groupFirstKnot surfs g

/-- Write a knot vector to the `tu` or `tv` slot selected by an edge index. -/
def writeKnot (surfs : List KSurf) (f : Nat) (e : Int) (kv : List ℚ) : List KSurf :=
  if e = 0 ∨ e = 1 then surfs.set f { surfs.getD f default with tu := kv }
  else surfs.set f { surfs.getD f default with tv := kv }

/-- `propagateKnotVectors` (lines 1219-1308): compute each group's shared knot
vector (from the surfaces as already rewritten by the preceding groups) and
copy it to both sides of every member edge. -/
def propagateKnotVectors (surfs : List KSurf) (con : List EdgeRec) : List KSurf :=
  (buildGroups con).foldl
    (fun ss g =>
      let kv := groupKnotVec ss g
      g.foldl
        (fun ss r =>
          let ss1 := writeKnot ss r.f1 (r.e1 : Int) kv
          if r.type = 1 then writeKnot ss1 (pyIdx ss1.length r.f2) r.e2 kv
          else ss1) ss) surfs

/-! ### Complex rationals and vectors for the update pipeline -/

/-- The pipeline runs in complex ('D') arithmetic; the numeric content is
modelled exactly over the rationals. -/
structure CQ where
  re : ℚ
  im : ℚ
deriving DecidableEq

instance : Zero CQ := ⟨⟨0, 0⟩⟩
instance : One CQ := ⟨⟨1, 0⟩⟩
instance : Add CQ := ⟨fun a b => ⟨a.re + b.re, a.im + b.im⟩⟩
instance : Sub CQ := ⟨fun a b => ⟨a.re - b.re, a.im - b.im⟩⟩
instance : Mul CQ := ⟨fun a b => ⟨a.re * b.re - a.im * b.im, a.re * b.im + a.im * b.re⟩⟩
instance : Inhabited CQ := ⟨0⟩

/-- The real part, as kept by `astype('d')`. -/
def CQ.real (a : CQ) : CQ := ⟨a.re, 0⟩

structure Vec3 where
  x : CQ
  y : CQ
  z : CQ
deriving DecidableEq

instance : Zero Vec3 := ⟨⟨0, 0, 0⟩⟩
instance : Add Vec3 := ⟨fun a b => ⟨a.x + b.x, a.y + b.y, a.z + b.z⟩⟩
instance : Sub Vec3 := ⟨fun a b => ⟨a.x - b.x, a.y - b.y, a.z - b.z⟩⟩
instance : Inhabited Vec3 := ⟨0⟩

/-- Componentwise scalar multiple (`D*ra.scales(s)`). -/
def vsmul (c : CQ) (v : Vec3) : Vec3 := ⟨c * v.x, c * v.y, c * v.z⟩

/-- Componentwise real part of a vector. -/
def Vec3.real (v : Vec3) : Vec3 := ⟨v.x.real, v.y.real, v.z.real⟩

/-! ### ref_axis (pyGeo2.py lines 2344-2451) and the update pipeline
(lines 1646-1746) -/

/-- The state of one `ref_axis` object: the anchor data (`x`, `rot`, `scale`
relative to `base_point`), the frozen copies (`x0`, ...), the internal spline
coefficient arrays (`xs.coef`, `rotxs.coef`, ...), the attachment links and
the chaining fields.  `con_type = some true` models the string 'full'. -/
structure RefAxis where
  N : Nat
  base_point : Vec3
  end_point : Vec3
  x : List Vec3
  rot : List Vec3
  scale : List CQ
  x0 : List Vec3
  rot0 : List Vec3
  scale0 : List CQ
  s : List CQ
  xsCoef : List Vec3
  rotxsCoef : List CQ
  rotysCoef : List CQ
  rotzsCoef : List CQ
  scalesCoef : List CQ
  links_s : List CQ
  links_x : List Vec3
  coef_list : List Nat
  con_type : Option Bool
  base_point_s : CQ
  base_point_D : Vec3
  end_point_s : CQ
  end_point_D : Vec3
deriving DecidableEq

instance : Inhabited RefAxis :=
  ⟨⟨0, 0, 0, [], [], [], [], [], [], [], [], [], [], [], [], [], [], [], none,
    0, 0, 0, 0⟩⟩

/-- Modelled from the spec: the external pySpline evaluation collaborators —
curve evaluation from a parameter array and a coefficient array, scalar spline
evaluation, the rotation matrix application (`getRotMatrixLocalToGlobal`,
built in the missing geo_utils module from z-y-x rotation matrices of the
three evaluated angles) and the surface-normal evaluation used by local design
variables. -/
structure Ext where
  evalV : List CQ → List Vec3 → CQ → Vec3
  evalS : List CQ → List CQ → CQ → CQ
  rotLtoG : CQ → CQ → CQ → Vec3 → Vec3
  normalAt : (Nat → Nat → Vec3) → Nat × Nat → Vec3

/-- `ref_axis.update` (lines 2413-2426): refresh the spline coefficient arrays
from the anchor data; for a 'full' connection the last position coefficient is
overwritten with the stored end point. -/
def raUpdate (ra : RefAxis) : RefAxis :=
  let xsC := ra.x.map (fun p => ra.base_point + p)
  let xsC := if ra.con_type = some true then xsC.set (xsC.length - 1) ra.end_point
             else xsC
  { ra with xsCoef := xsC,
            rotxsCoef := ra.rot.map (fun v => v.x),
            rotysCoef := ra.rot.map (fun v => v.y),
            rotzsCoef := ra.rot.map (fun v => v.z),
            scalesCoef := ra.scale }

/-- A surface as touched by the update pipeline: its control-point grid and the
`updated` marker grid. -/
structure SurfaceG where
  coef : Nat → Nat → Vec3
  updated : Nat → Nat → Bool

instance : Inhabited SurfaceG := ⟨⟨fun _ _ => 0, fun _ _ => false⟩⟩

/-- A global design variable (`geoDVGlobal`, lines 2453-2488): its current
value and the user-supplied update function called as `function(value, axes)`.
The scalar case (`nVal = 1`) is modelled as a one-element value list. -/
structure GeoDVGlobal where
  value : List CQ
  function : List CQ → List RefAxis → List RefAxis

instance : Inhabited GeoDVGlobal := ⟨⟨[], fun _ a => a⟩⟩

/-- A local design variable (`geoDVLocal`, lines 2491-2544). -/
structure GeoDVLocal where
  value : List CQ
  surface_id : Nat
  coef_list : List Nat
  local_coef_index : List (Nat × Nat)

/-- The pyGeo state read and written by `update` and `calcCtlDeriv`. -/
structure PState where
  coef : List Vec3
  surfs : List SurfaceG
  global_coef : List (List (Nat × Nat × Nat))
  ref_axis : List RefAxis
  ref_axis_con : List (Nat × Nat × Option Bool)
  DV_listGlobal : List GeoDVGlobal
  DV_listLocal : List GeoDVLocal

/-- First pipeline step (lines 1650-1653): apply every global design variable
to the reference-axis list. -/
def applyGlobalDVs (dvs : List GeoDVGlobal) (axes : List RefAxis) : List RefAxis :=
  dvs.foldl (fun a dv => dv.function dv.value a) axes

/-- One reference-axis connection step (lines 1658-1685): refresh the parent
axis, carry the child's stored base (and, for a 'full' connection, end) point
through the parent's local frame, then refresh the child. -/
def conStep (ext : Ext) (axes : List RefAxis) (cn : Nat × Nat × Option Bool) :
    List RefAxis :=
  let axes1 := axes.set cn.1 (raUpdate (axes.getD cn.1 default))
  let A1 := axes1.getD cn.1 default
  let A2 := axes1.getD cn.2.1 default
  let rotAt := fun (t : CQ) (v : Vec3) =>
    ext.rotLtoG (ext.evalS A1.s A1.rotxsCoef t) (ext.evalS A1.s A1.rotysCoef t)
      (ext.evalS A1.s A1.rotzsCoef t) v
  let s := A2.base_point_s
  let D := rotAt s A2.base_point_D
  let X0 := ext.evalV A1.s A1.xsCoef s
  let A2 := { A2 with base_point := X0 + vsmul (ext.evalS A1.s A1.scalesCoef s) D }
  let A2 :=
    if A2.con_type = some true then
      let se := A2.end_point_s
      let De := rotAt se A2.end_point_D
      let Xe := ext.evalV A1.s A1.xsCoef se
      { A2 with end_point := Xe + vsmul (ext.evalS A1.s A1.scalesCoef se) De }
    else A2
  axes1.set cn.2.1 (raUpdate A2)

/-- Second pipeline step (lines 1657-1689): with connections present only the
connected axes are refreshed (through `conStep`); otherwise every axis is
refreshed. -/
def axesPipeline (ext : Ext) (cons : List (Nat × Nat × Option Bool))
    (axes : List RefAxis) : List RefAxis :=
  if 0 < cons.length then cons.foldl (conStep ext) axes
  else axes.map raUpdate

/-- Modelled from the spec: the coefficient recomputed for attachment `i` of an
axis — `AxisPositionAt(s_i) + RotationMatrix(s_i) · D_i · AxisScaleAt(s_i)`
(the fortran `getcomplexcoef` of lines 1701-1703, also shown as the commented
python of lines 1705-1711). -/
def linkVal (ext : Ext) (ra : RefAxis) (i : Nat) : Vec3 :=
  let t := ra.links_s.getD i 0
  let base := ext.evalV ra.s ra.xsCoef t
  let D := ext.rotLtoG (ext.evalS ra.s ra.rotxsCoef t) (ext.evalS ra.s ra.rotysCoef t)
    (ext.evalS ra.s ra.rotzsCoef t) (ra.links_x.getD i 0)
  base + vsmul (ext.evalS ra.s ra.scalesCoef t) D

/-- The coefficient writes performed for one axis: position `coef_list[i]`
receives `linkVal i`. -/
def linkWrites (ext : Ext) (ra : RefAxis) : List (Nat × Vec3) :=
  (List.range ra.links_s.length).map (fun i => (ra.coef_list.getD i 0, linkVal ext ra i))

/-- Apply a list of positional writes to the coefficient list in order. -/
def applyWrites (c : List Vec3) (ws : List (Nat × Vec3)) : List Vec3 :=
  ws.foldl (fun c pv => c.set pv.1 pv.2) c

/-- Modelled from the spec: the external `updatesurfacepoints` collaborator
(lines 2540-2543 together with spec §4.4 step 5) — each local design-variable
component adds `value_k` times the current surface normal at its grid index to
its coefficient. -/
def applyLocalDV (ext : Ext) (su : SurfaceG) (dv : GeoDVLocal) (c : List Vec3) :
    List Vec3 :=
  (List.range dv.value.length).foldl
    (fun c k =>
      let gi := dv.coef_list.getD k 0
      c.set gi (c.getD gi 0 +
        vsmul (dv.value.getD k 0) (ext.normalAt su.coef (dv.local_coef_index.getD k (0, 0)))))
    c

/-- `_updateCoef` (lines 1646-1724): apply global design variables, run the
connection/refresh pipeline, recompute every attached coefficient, apply local
design variables.  The `loc` argument mirrors the unused `local` parameter of
the source (the body applies local design variables regardless).  The mutated
axis list is returned along with the coefficients, since the source updates
`self.ref_axis` in place. -/
def updateCoef (ext : Ext) (st : PState) (_loc : Bool) : List Vec3 × List RefAxis :=
  let axes := applyGlobalDVs st.DV_listGlobal st.ref_axis
  let axes := axesPipeline ext st.ref_axis_con axes
  let c := applyWrites st.coef (axes.flatMap (linkWrites ext))
  let c := st.DV_listLocal.foldl
    (fun c dv => applyLocalDV ext (st.surfs.getD dv.surface_id default) dv c) c
  (c, axes)

/-- `_updateSurfaceCoef` (lines 1734-1746): scatter the coefficient list back
into every aliased surface grid cell and mark it updated. -/
def updateSurfaceCoef (st : PState) : PState :=
  let surfs := (List.range st.coef.length).foldl
    (fun ss ii =>
      (st.global_coef.getD ii []).foldl
        (fun ss al =>
          ss.set al.1
            { coef := fun a b =>
                if a = al.2.1 ∧ b = al.2.2 then st.coef.getD ii 0
                else (ss.getD al.1 default).coef a b,
              updated := fun a b =>
                if a = al.2.1 ∧ b = al.2.2 then true
                else (ss.getD al.1 default).updated a b }) ss)
    st.surfs
  { st with surfs := surfs }

/-- `update` (lines 1726-1732): recompute the coefficients, keep the real part
(`astype('d')`), store the mutated axis list and scatter to the surfaces. -/
def update (ext : Ext) (st : PState) : PState :=
  let r := updateCoef ext st true
  updateSurfaceCoef { st with coef := r.1.map Vec3.real, ref_axis := r.2 }

/-! ### calcCtlDeriv (pyGeo2.py lines 1748-1865) -/

/-- The complex step `h = 1.0e-40j`. -/
def hCS : CQ := ⟨0, 1 / 10 ^ 40⟩

/-- Update one element of a list through a function. -/
def modifyAt (l : List GeoDVGlobal) (k : Nat) (f : GeoDVGlobal → GeoDVGlobal) :
    List GeoDVGlobal :=
  l.set k (f (l.getD k default))

/-- One iteration of the complex-step loop (lines 1793-1810): perturb component
`jj` of design variable `idv` by `h`, rerun `_updateCoef` (which mutates the
axis list), read the column as the imaginary part over `1e-40`, and subtract
`h` again. -/
def csStep (ext : Ext) (idv jj : Nat) (st : PState) : PState × List ℚ :=
  let pert := fun (dv : GeoDVGlobal) =>
    { dv with value := dv.value.set jj (dv.value.getD jj 0 + hCS) }
  let unpert := fun (dv : GeoDVGlobal) =>
    { dv with value := dv.value.set jj (dv.value.getD jj 0 - hCS) }
  let st1 := { st with DV_listGlobal := modifyAt st.DV_listGlobal idv pert }
  let r := updateCoef ext st1 false
  let st2 := { st1 with ref_axis := r.2 }
  let col := r.1.flatMap (fun v =>
    [v.x.im / (1 / 10 ^ 40), v.y.im / (1 / 10 ^ 40), v.z.im / (1 / 10 ^ 40)])
  let st3 := { st2 with DV_listGlobal := modifyAt st2.DV_listGlobal idv unpert }
  (st3, col)

def csLoop (ext : Ext) : List (Nat × Nat) → PState → List (List ℚ) →
    PState × List (List ℚ)
  | [], st, cols => (st, cols)
  | p :: rest, st, cols =>
    let r := csStep ext p.1 p.2 st
    csLoop ext rest r.1 (cols ++ [r.2])

/-- `calcCtlDeriv` (lines 1748-1865), restricted to the master complex-step
loop over all scalar components of all global design variables; the Jacobian
columns are collected in order. -/
def calcCtlDeriv (ext : Ext) (st : PState) : PState × List (List ℚ) :=
  let pairs := (List.range st.DV_listGlobal.length).flatMap
    (fun idv => (List.range ((st.DV_listGlobal.getD idv default).value.length)).map
      (fun jj => (idv, jj)))
  csLoop ext pairs st []

/-! ### addRefAxis section construction (pyGeo2.py lines 1499-1562) -/

/-- Modelled from the spec: the external pySpline `linear_spline` fit/evaluate
collaborators used by `addRefAxis` — given the task (`true` for 'lms'), the
anchors, the section count and the spacing array, produce the evaluated
positions respectively rotations. -/
structure ExtRA where
  curveEval : Bool → List Vec3 → Nat → Option (List CQ) → List Vec3
  rotEval : Bool → List Vec3 → List Vec3 → Nat → Option (List CQ) → List Vec3

/-- `linspace(0,1,n)`. -/
def linspace01 (n : Nat) : List CQ :=
  (List.range n).map (fun k => ⟨if n ≤ 1 then 0 else (k : ℚ) / ((n : ℚ) - 1), 0⟩)

/-- The section-construction part of `addRefAxis` (lines 1513-1562): fewer
sections than anchors triggers the LMS branch, more sections the interpolation
branch; in both, a non-None `spacing` argument is overwritten with
`linspace(0,1,nrefsecs)` (lines 1528-1529 and 1553-1554) before evaluation. -/
def addRefAxisSections (ext : ExtRA) (X rot : List Vec3) (nrefsecs0 : Option Nat)
    (spacing : Option (List CQ)) : List Vec3 × List Vec3 :=
  let nrefsecs := nrefsecs0.getD X.length
  if nrefsecs < X.length then
    let spacing := if ¬ spacing = none then some (linspace01 nrefsecs) else spacing
    (ext.curveEval true X nrefsecs spacing, ext.rotEval true X rot nrefsecs spacing)
  else if nrefsecs = X.length then (X, rot)
  else
    let spacing := if ¬ spacing = none then some (linspace01 nrefsecs) else spacing
    (ext.curveEval false X nrefsecs spacing, ext.rotEval false X rot nrefsecs spacing)

/-! ### Concrete instances -/

/-- Two rectangular patches with 6×4 control grids. -/
def surfsTwo : List Surf := [⟨6, 4⟩, ⟨6, 4⟩]

/-- Edge 1 of patch 0 coincides with edge 0 of patch 1 (same direction); no
other edges coincide. -/
def teTwo : TestEdge := fun s t i j => (decide (s = 0 ∧ t = 1 ∧ i = 1 ∧ j = 0), 1)

/-- The connectivity table computed for the two-patch scenario. -/
def conTwo : List EdgeRec := calcEdgeConnectivity teTwo 2

/-- The indexer state of the two-patch scenario. -/
def stTwo : GIState := (setEdgeConnectivity surfsTwo conTwo).getD default

/-- Three 3×3 patches: patch 2 is the slave side of both of its corner-adjacent
edges 0 and 2 (masters are patch 0 edge 1 and patch 1 edge 3). -/
def surfsCorner : List Surf := [⟨3, 3⟩, ⟨3, 3⟩, ⟨3, 3⟩]

def conCorner : List EdgeRec :=
  [{ type := 1, f1 := 0, e1 := 1, dof := 7, cont := 0, dir := 1, dg := 0,
     Nctl := 10, f2 := 2, e2 := 0 },
   { type := 1, f1 := 1, e1 := 3, dof := 7, cont := 0, dir := 1, dg := 1,
     Nctl := 10, f2 := 2, e2 := 2 },
   mirrorRec (0, 0) 0, mirrorRec (0, 2) 1, mirrorRec (0, 3) 1,
   mirrorRec (1, 0) 0, mirrorRec (1, 1) 0, mirrorRec (1, 2) 1,
   mirrorRec (2, 1) 0, mirrorRec (2, 3) 1]

/-- Knot surfaces for the symmetrization scenario: the shared `tu` vector has
odd length with middle entry 3/10. -/
def surfsKnot : List KSurf :=
  [⟨[0, 0, 3/10, 1, 1], [0, 0, 1, 1]⟩, ⟨[0, 0, 1/2, 1, 1], [0, 0, 1, 1]⟩]

/-- A connectivity table joining edge 0 of the two patches with reversed
direction; the remaining edges are free, grouped as produced by the driving
group propagation. -/
def conKnot : List EdgeRec :=
  [{ type := 1, f1 := 0, e1 := 0, dof := 7, cont := 0, dir := -1, dg := 0,
     Nctl := 10, f2 := 1, e2 := 0 },
   mirrorRec (0, 1) 0, mirrorRec (1, 1) 0,
   mirrorRec (0, 2) 1, mirrorRec (0, 3) 1, mirrorRec (1, 2) 1, mirrorRec (1, 3) 1]

/-- Shorthand for a real vector on the x axis. -/
def vX (q : ℚ) : Vec3 := ⟨⟨q, 0⟩, 0, 0⟩

/-- Modelled from the spec: a concrete collaborator instance for the update
pipeline.  A two-anchor linear spline is the parametric segment between its
end coefficients, and the rotation matrix is the identity (exact for the zero
rotation angles carried by the concrete states below). -/
def extLin : Ext where
  evalV := fun _ cs t => vsmul (1 - t) (cs.getD 0 0) + vsmul t (cs.getD (cs.length - 1) 0)
  evalS := fun _ cs t => (1 - t) * cs.getD 0 0 + t * cs.getD (cs.length - 1) 0
  rotLtoG := fun _ _ _ v => v
  normalAt := fun _ _ => 0

/-- A two-anchor reference axis along the x axis with zero rotations, unit
scales, and one attached coefficient at arclength 0 with zero offset. -/
def axTwo : RefAxis :=
  { N := 2, base_point := 0, end_point := vX 1,
    x := [0, vX 1], rot := [0, 0], scale := [1, 1],
    x0 := [0, vX 1], rot0 := [0, 0], scale0 := [1, 1],
    s := [0, 1], xsCoef := [0, vX 1],
    rotxsCoef := [0, 0], rotysCoef := [0, 0], rotzsCoef := [0, 0],
    scalesCoef := [1, 1],
    links_s := [0], links_x := [0], coef_list := [0], con_type := none,
    base_point_s := 0, base_point_D := 0, end_point_s := 0, end_point_D := 0 }

/-- A translation-style global design variable: each call shifts every anchor
of every axis by the value along x (a typical incremental `updateFn`). -/
def dvShift : GeoDVGlobal :=
  { value := [1],
    function := fun v axes => axes.map
      (fun a => { a with x := a.x.map (fun p => p + vX (v.getD 0 0).re) }) }

/-- A set-style global design variable: each call rebuilds the anchors from the
frozen `x0` copies. -/
def dvSet : GeoDVGlobal :=
  { value := [1],
    function := fun v axes => axes.map
      (fun a => { a with x := a.x0.map (fun p => p + vX (v.getD 0 0).re) }) }

/-- A pyGeo state with one axis, one attached coefficient and the incremental
design variable. -/
def stShift : PState :=
  { coef := [0], surfs := [default], global_coef := [[(0, 0, 0)]],
    ref_axis := [axTwo], ref_axis_con := [], DV_listGlobal := [dvShift],
    DV_listLocal := [] }

/-- The same state with the set-style design variable. -/
def stSet : PState :=
  { coef := [0], surfs := [default], global_coef := [[(0, 0, 0)]],
    ref_axis := [axTwo], ref_axis_con := [], DV_listGlobal := [dvSet],
    DV_listLocal := [] }

/-- A trivial section-construction collaborator. -/
def extRA0 : ExtRA where
  curveEval := fun _ X _ _ => X
  rotEval := fun _ _ rot _ _ => rot

/-! ## List helper lemmas -/

theorem getD_set_ne {α : Type} {k p : Nat} (l : List α) (v d : α) (h : k ≠ p) :
    (l.set p v).getD k d = l.getD k d := by
  induction l generalizing k p with
  | nil => simp
  | cons a l ih =>
    cases p with
    | zero => cases k with
      | zero => exact absurd rfl h
      | succ k => simp [List.getD]
    | succ p => cases k with
      | zero => simp [List.getD]
      | succ k => simpa [List.getD] using ih (fun e => h (by simp [e]))

theorem getD_set_lt {α : Type} {p : Nat} (l : List α) (v d : α) (h : p < l.length) :
    (l.set p v).getD p d = v := by
  induction l generalizing p with
  | nil => simp at h
  | cons a l ih =>
    cases p with
    | zero => simp [List.getD]
    | succ p => simpa [List.getD] using ih (by simpa using h)

theorem set_oob {α : Type} {p : Nat} (l : List α) (v : α) (h : l.length ≤ p) :
    l.set p v = l := by
  induction l generalizing p with
  | nil => simp
  | cons a l ih =>
    cases p with
    | zero => simp at h
    | succ p => simpa using ih (by simpa using h)

theorem set_getD_self {α : Type} (l : List α) (j : Nat) (d : α) :
    l.set j (l.getD j d) = l := by
  induction l generalizing j with
  | nil => simp
  | cons a l ih =>
    cases j with
    | zero => simp [List.getD]
    | succ j =>
      show a :: l.set j ((a :: l).getD (j + 1) d) = a :: l
      rw [List.getD_cons_succ, ih]

theorem list_eq_of_getD {α : Type} (d : α) :
    ∀ (l l' : List α), l.length = l'.length →
      (∀ k, l.getD k d = l'.getD k d) → l = l'
  | [], [], _, _ => rfl
  | [], _ :: _, h, _ => by simp at h
  | _ :: _, [], h, _ => by simp at h
  | a :: l, b :: l', h, hk => by
    have h0 := hk 0
    simp [List.getD] at h0
    have := list_eq_of_getD d l l' (by simpa using h) (fun k => by
      have := hk (k + 1); simpa [List.getD] using this)
    rw [h0, this]

/-! ## C10: addRefAxis spacing handling -/

/-- C10: whenever the requested section count differs from the anchor count, a
non-None caller-supplied spacing array is overwritten with the uniform
`linspace(0,1,nrefsecs)` before evaluation, so two different non-None spacing
arguments produce the same reference-axis data. -/
theorem addRefAxisSections_spacing_ignored (ext : ExtRA) (X rot : List Vec3)
    (n : Nat) (s1 s2 : Option (List CQ))
    (h1 : s1.isSome = true) (h2 : s2.isSome = true) (hn : n ≠ X.length) :
    addRefAxisSections ext X rot (some n) s1 =
      addRefAxisSections ext X rot (some n) s2 := by
  obtain ⟨a, rfl⟩ := Option.isSome_iff_exists.mp h1
  obtain ⟨b, rfl⟩ := Option.isSome_iff_exists.mp h2
  unfold addRefAxisSections
  rcases lt_trichotomy n X.length with h | h | h
  · simp [h]
  · exact absurd h hn
  · simp [Nat.lt_asymm h, hn]

/-- Witness for C10 at a concrete input: two different non-None spacings, a
section count of 1 against 2 anchors. -/
theorem addRefAxisSections_spacing_ignored_witness :
    (some [(⟨1/2, 0⟩ : CQ)]).isSome = true ∧ (some ([] : List CQ)).isSome = true ∧
    (1 : Nat) ≠ ([vX 0, vX 1] : List Vec3).length ∧
    addRefAxisSections extRA0 [vX 0, vX 1] [0, 0] (some 1) (some [⟨1/2, 0⟩]) =
      addRefAxisSections extRA0 [vX 0, vX 1] [0, 0] (some 1) (some []) :=
  ⟨rfl, rfl, by decide,
    addRefAxisSections_spacing_ignored extRA0 [vX 0, vX 1] [0, 0] 1 _ _ rfl rfl
      (by decide)⟩

/-! ## C7: the overwrite gate is an interactive prompt, not a flag -/

/-- C7 counterexample: with a connectivity table already present and the
interactive reply "1", `calcEdgeConnectivity` recomputes and overwrites the
table instead of refusing — there is no caller-supplied force flag in the
control flow at all. -/
theorem calcEdgeConnectivityRun_overwrites_on_prompt :
    calcEdgeConnectivityRun (fun _ _ _ _ => (false, 1)) 1 (some []) "1" ≠
      some [] := by
  decide

/-- C7 amended: re-running connectivity discovery or re-loading a connectivity
file when a table already exists is gated by the interactive prompt reply
alone: the reply "0" keeps the old table, any other reply recomputes and
overwrites it. -/
theorem connectivity_overwrite_gated_by_prompt (te : TestEdge) (n : Nat)
    (file : List (List Int)) (prev : Option (List EdgeRec)) (ans : String)
    (hans : ans ≠ "0") :
    calcEdgeConnectivityRun te n prev ans = some (calcEdgeConnectivity te n) ∧
    readEdgeConnectivityRun file prev ans = some (readEdgeConnectivity file) ∧
    (prev.isSome = true → calcEdgeConnectivityRun te n prev "0" = prev) ∧
    (prev.isSome = true → readEdgeConnectivityRun file prev "0" = prev) := by
  refine ⟨by simp [calcEdgeConnectivityRun, hans],
    by simp [readEdgeConnectivityRun, hans], ?_, ?_⟩ <;>
  · intro hp
    cases prev with
    | none => simp at hp
    | some c => simp [calcEdgeConnectivityRun, readEdgeConnectivityRun]

/-- Witness for C7's amended statement at a concrete input. -/
theorem connectivity_overwrite_gated_by_prompt_witness :
    ("1" : String) ≠ "0" ∧
    calcEdgeConnectivityRun teTwo 2 (some []) "1" =
      some (calcEdgeConnectivity teTwo 2) :=
  ⟨by decide,
    (connectivity_overwrite_gated_by_prompt teTwo 2 [] (some []) "1"
      (by decide)).1⟩

/-! ## C2: the two-patch concrete scenario -/

/-- C2: for two 6×4 patches whose only coincidence is patch 0 edge 1 against
patch 1 edge 0, `calcEdgeConnectivity` produces exactly one joined record (for
that pair) and six free records, and `_setEdgeConnectivity` counts
`6*4 + 6*4 - 6 = 42` degrees of freedom. -/
theorem twoPatch_scenario_counts :
    (conTwo.filter (fun r => decide (r.type = 1))).length = 1 ∧
    (conTwo.filter (fun r => decide (r.type = 1 ∧ r.f1 = 0 ∧ r.e1 = 1 ∧
      r.f2 = 1 ∧ r.e2 = 0))).length = 1 ∧
    (conTwo.filter (fun r => decide (r.type = 0))).length = 6 ∧
    (setEdgeConnectivity surfsTwo conTwo).map GIState.Ncoef =
      some (6 * 4 + 6 * 4 - 6) := by
  decide

/-! ## C3: a corner with two slave edges continues instead of aborting -/

/-- C3 counterexample: patch 2 of `conCorner` is the slave side of both edges
adjacent to its `(0,0)` corner, yet `_setEdgeConnectivity` completes and
produces a geometry (22 DOFs) instead of failing fatally. -/
theorem cornerBothSlave_continues :
    (findConIndex conCorner 2 0).map Prod.snd = some false ∧
    (findConIndex conCorner 2 2).map Prod.snd = some false ∧
    (setEdgeConnectivity surfsCorner conCorner).isSome = true ∧
    (setEdgeConnectivity surfsCorner conCorner).map GIState.Ncoef = some 22 := by
  decide

/-- C3 amended: when both records adjacent to a `(0,0)` corner mark the patch
as slave, the indexer logs a diagnostic and continues, aliasing the corner
through the record found for edge 0; a fatal abort happens only when
`_findConIndex` finds no record at all for one of the two edges. -/
theorem processCell_corner_bothSlave (surfs : List Surf) (con : List EdgeRec)
    (st : GIState) (s : Nat) (r1 r2 : EdgeRec)
    (h1 : findConIndex con s 0 = some (r1, false))
    (h2 : findConIndex con s 2 = some (r2, false)) :
    processCell surfs con s 0 0 st =
      some (resolveSlave surfs st r1 0 (s, 0, 0)) := by
  unfold processCell
  simp [h1, h2]

/-- Witness for C3's amended statement at the concrete corner input. -/
theorem processCell_corner_bothSlave_witness :
    findConIndex conCorner 2 0 = some (conCorner.getD 0 default, false) ∧
    findConIndex conCorner 2 2 = some (conCorner.getD 1 default, false) ∧
    processCell surfsCorner conCorner 2 0 0 GIState.init =
      some (resolveSlave surfsCorner GIState.init (conCorner.getD 0 default) 0
        (2, 0, 0)) :=
  ⟨by decide, by decide,
    processCell_corner_bothSlave surfsCorner conCorner GIState.init 2
      (conCorner.getD 0 default) (conCorner.getD 1 default)
      (by decide) (by decide)⟩

/-! ## C9: calcCtlDeriv restores the design-variable values -/

theorem cq_add_sub_cancel (a b : CQ) : a + b - b = a := by
  cases a with | mk x y =>
  cases b with | mk u v =>
  show CQ.mk (x + u - u) (y + v - v) = CQ.mk x y
  rw [add_sub_cancel_right, add_sub_cancel_right]

/-- Perturbing a value component by `h` and subtracting `h` from the perturbed
component restores the original value list exactly. -/
theorem set_perturb_restore (v : List CQ) (jj : Nat) (h : CQ) :
    (v.set jj (v.getD jj 0 + h)).set jj
      ((v.set jj (v.getD jj 0 + h)).getD jj 0 - h) = v := by
  by_cases hj : jj < v.length
  · rw [getD_set_lt _ _ _ hj, cq_add_sub_cancel, List.set_set, set_getD_self]
  · rw [set_oob _ _ (Nat.le_of_not_lt hj), set_oob _ _ (Nat.le_of_not_lt hj)]

/-- Composing two element updates at the same position with inverse update
functions is the identity. -/
theorem modifyAt_modifyAt_cancel (l : List GeoDVGlobal) (k : Nat)
    (f g : GeoDVGlobal → GeoDVGlobal) (h : ∀ dv, g (f dv) = dv) :
    modifyAt (modifyAt l k f) k g = l := by
  unfold modifyAt
  by_cases hk : k < l.length
  · rw [getD_set_lt _ _ _ hk, List.set_set, h, set_getD_self]
  · rw [set_oob _ _ (Nat.le_of_not_lt hk), set_oob _ _ (Nat.le_of_not_lt hk)]

/-- One complex-step iteration leaves the global design-variable list intact. -/
theorem csStep_DV_listGlobal (ext : Ext) (idv jj : Nat) (st : PState) :
    (csStep ext idv jj st).1.DV_listGlobal = st.DV_listGlobal := by
  show modifyAt (modifyAt st.DV_listGlobal idv
      (fun dv => { dv with value := dv.value.set jj (dv.value.getD jj 0 + hCS) })) idv
      (fun dv => { dv with value := dv.value.set jj (dv.value.getD jj 0 - hCS) }) =
    st.DV_listGlobal
  refine modifyAt_modifyAt_cancel _ _ _ _ ?_
  intro dv
  cases dv with | mk val fn =>
  show GeoDVGlobal.mk ((val.set jj (val.getD jj 0 + hCS)).set jj
    ((val.set jj (val.getD jj 0 + hCS)).getD jj 0 - hCS)) fn = GeoDVGlobal.mk val fn
  rw [set_perturb_restore]

theorem csLoop_DV_listGlobal (ext : Ext) (l : List (Nat × Nat)) :
    ∀ (st : PState) (cols : List (List ℚ)),
      (csLoop ext l st cols).1.DV_listGlobal = st.DV_listGlobal := by
  induction l with
  | nil => intro st cols; rfl
  | cons p rest ih =>
    intro st cols
    show (csLoop ext rest (csStep ext p.1 p.2 st).1 _).1.DV_listGlobal = _
    rw [ih, csStep_DV_listGlobal]

/-- C9: the complex-step Jacobian loop restores every perturbed component, so
after `calcCtlDeriv` returns the global design-variable list (values included)
equals its state before the call. -/
theorem calcCtlDeriv_restores_DVs (ext : Ext) (st : PState) :
    (calcCtlDeriv ext st).1.DV_listGlobal = st.DV_listGlobal := by
  unfold calcCtlDeriv
  exact csLoop_DV_listGlobal ext _ st []

/-! ## C5: knot-vector symmetrization -/

theorem symBeg_length (kv : List ℚ) (mid cut : Nat) :
    (symBeg kv mid cut).length = min (min mid kv.length) (kv.length - cut) := by
  simp [symBeg]

/-- Mirror reads on `(1 - beg)[::-1]`: entry `j` (for `j < beg.length`) is
`1 - beg[j']` at the mirrored position. -/
theorem rev_map_getD (beg : List ℚ) (j : Nat) (hj : j < beg.length) :
    ((beg.map (fun t => 1 - t)).reverse).getD j 0 =
      1 - beg.getD (beg.length - 1 - j) 0 := by
  have hj1 : j < ((beg.map (fun t => 1 - t)).reverse).length := by simpa using hj
  have hj2 : beg.length - 1 - j < beg.length := by omega
  rw [List.getD_eq_getElem _ _ hj1, List.getD_eq_getElem _ _ hj2]
  rw [List.getElem_reverse]
  simp

/-- A list of the shape `beg ++ midl ++ (1 - beg)[::-1]` has entries summing
to 1 across the mirror for every index outside the middle block. -/
theorem mirror_sum (beg midl : List ℚ) (k : Nat)
    (hk : k < beg.length + midl.length + beg.length)
    (hout : k < beg.length ∨ beg.length + midl.length ≤ k) :
    (beg ++ midl ++ (beg.map (fun t => 1 - t)).reverse).getD k 0 +
      (beg ++ midl ++ (beg.map (fun t => 1 - t)).reverse).getD
        (beg.length + midl.length + beg.length - 1 - k) 0 = 1 := by
  have hlen2 : (beg ++ midl).length = beg.length + midl.length := by simp
  rcases hout with hlt | hge
  · have e1 : ((beg ++ midl) ++ (beg.map (fun t => 1 - t)).reverse).getD k 0 =
        beg.getD k 0 := by
      rw [List.getD_append _ _ _ _ (by rw [hlen2]; omega),
        List.getD_append _ _ _ _ hlt]
    have e2 : ((beg ++ midl) ++ (beg.map (fun t => 1 - t)).reverse).getD
        (beg.length + midl.length + beg.length - 1 - k) 0 =
        ((beg.map (fun t => 1 - t)).reverse).getD
          (beg.length + midl.length + beg.length - 1 - k -
            (beg ++ midl).length) 0 :=
      List.getD_append_right _ _ _ _ (by rw [hlen2]; omega)
    have hidx : beg.length + midl.length + beg.length - 1 - k -
        (beg ++ midl).length = beg.length - 1 - k := by rw [hlen2]; omega
    have hidx2 : beg.length - 1 - (beg.length - 1 - k) = k := by omega
    rw [e1, e2, hidx, rev_map_getD _ _ (by omega), hidx2]
    ring
  · have hlt1 : beg.length + midl.length + beg.length - 1 - k < beg.length := by
      omega
    have e1 : ((beg ++ midl) ++ (beg.map (fun t => 1 - t)).reverse).getD
        (beg.length + midl.length + beg.length - 1 - k) 0 =
        beg.getD (beg.length + midl.length + beg.length - 1 - k) 0 := by
      rw [List.getD_append _ _ _ _ (by rw [hlen2]; omega),
        List.getD_append _ _ _ _ hlt1]
    have e2 : ((beg ++ midl) ++ (beg.map (fun t => 1 - t)).reverse).getD k 0 =
        ((beg.map (fun t => 1 - t)).reverse).getD (k - (beg ++ midl).length) 0 :=
      List.getD_append_right _ _ _ _ (by rw [hlen2]; omega)
    have hidx : k - (beg ++ midl).length = k - beg.length - midl.length := by
      rw [hlen2]; omega
    have hidx2 : beg.length - 1 - (k - beg.length - midl.length) =
        beg.length + midl.length + beg.length - 1 - k := by omega
    rw [e1, e2, hidx, rev_map_getD _ _ (by omega), hidx2]
    ring

theorem symKnot_length (kv : List ℚ) : (symKnot kv).length = kv.length := by
  by_cases h : kv.length % 2 = 1 <;>
    simp [symKnot, h, symBeg_length] <;> omega

/-- The symmetrized knot vector satisfies `knot[k] + knot[n-1-k] = 1` for every
index except — for odd length — the untouched middle entry. -/
theorem symKnot_sum (kv : List ℚ) (k : Nat) (hk : k < kv.length)
    (hmid : kv.length % 2 = 0 ∨ k ≠ (kv.length - 1) / 2) :
    (symKnot kv).getD k 0 + (symKnot kv).getD (kv.length - 1 - k) 0 = 1 := by
  by_cases h : kv.length % 2 = 1
  · have hblen : (symBeg kv ((kv.length - 1) / 2) ((kv.length - 1) / 2 + 1)).length =
        (kv.length - 1) / 2 := by
      rw [symBeg_length]; omega
    have hs : symKnot kv =
        symBeg kv ((kv.length - 1) / 2) ((kv.length - 1) / 2 + 1) ++
          [kv.getD ((kv.length - 1) / 2) 0] ++
          ((symBeg kv ((kv.length - 1) / 2) ((kv.length - 1) / 2 + 1)).map
            (fun t => 1 - t)).reverse := by
      rw [symKnot, if_pos h]
    have hkne : k ≠ (kv.length - 1) / 2 := by
      rcases hmid with h0 | h0
      · omega
      · exact h0
    have hidx : kv.length - 1 - k =
        (symBeg kv ((kv.length - 1) / 2) ((kv.length - 1) / 2 + 1)).length +
          ([kv.getD ((kv.length - 1) / 2) 0] : List ℚ).length +
          (symBeg kv ((kv.length - 1) / 2) ((kv.length - 1) / 2 + 1)).length -
          1 - k := by
      rw [hblen]
      simp only [List.length_cons, List.length_nil]
      omega
    rw [hs, hidx]
    refine mirror_sum _ _ k ?_ ?_
    · rw [hblen]; simp only [List.length_cons, List.length_nil]; omega
    · rw [hblen]; simp only [List.length_cons, List.length_nil]; omega
  · have hblen : (symBeg kv (kv.length / 2) (kv.length / 2)).length =
        kv.length / 2 := by
      rw [symBeg_length]; omega
    have hs : symKnot kv =
        symBeg kv (kv.length / 2) (kv.length / 2) ++ [] ++
          ((symBeg kv (kv.length / 2) (kv.length / 2)).map
            (fun t => 1 - t)).reverse := by
      rw [symKnot, if_neg h]
      simp
    have hidx : kv.length - 1 - k =
        (symBeg kv (kv.length / 2) (kv.length / 2)).length +
          ([] : List ℚ).length +
          (symBeg kv (kv.length / 2) (kv.length / 2)).length - 1 - k := by
      rw [hblen]
      simp only [List.length_nil]
      omega
    rw [hs, hidx]
    refine mirror_sum _ _ k ?_ ?_
    · rw [hblen]; simp only [List.length_nil]; omega
    · rw [hblen]; simp only [List.length_nil]; omega

/-- C5 (amended): after knot propagation, the knot vector shared by every
member of a driving group containing a reversed (`dir = -1`) edge satisfies
`knot[k] + knot[n-1-k] = 1` for every index `k` except, when the length is
odd, the middle index `(n-1)/2`, whose original value is kept by the
symmetrization. -/
theorem groupKnotVec_symmetric_off_middle (surfs : List KSurf) (g : List EdgeRec)
    (hsym : groupSymmetric g = true) (k : Nat)
    (hk : k < (groupKnotVec surfs g).length)
    (hmid : (groupKnotVec surfs g).length % 2 = 0 ∨
      k ≠ ((groupKnotVec surfs g).length - 1) / 2) :
    (groupKnotVec surfs g).getD k 0 +
      (groupKnotVec surfs g).getD ((groupKnotVec surfs g).length - 1 - k) 0 = 1 := by
  have hgv : groupKnotVec surfs g = symKnot (groupFirstKnot surfs g) := by
    rw [groupKnotVec, if_pos hsym]
  rw [hgv] at hk hmid ⊢
  rw [symKnot_length] at hk hmid ⊢
  exact symKnot_sum _ k hk hmid

/-- Witness for C5's amended statement: the driving group joining the two
patches of `conKnot` reversed, at index 0 of its length-5 shared vector. -/
theorem groupKnotVec_symmetric_off_middle_witness :
    groupSymmetric ((buildGroups conKnot).getD 0 []) = true ∧
    (0 : Nat) < (groupKnotVec surfsKnot ((buildGroups conKnot).getD 0 [])).length ∧
    (0 : Nat) ≠ ((groupKnotVec surfsKnot ((buildGroups conKnot).getD 0 [])).length - 1) / 2 ∧
    (groupKnotVec surfsKnot ((buildGroups conKnot).getD 0 [])).getD 0 0 +
      (groupKnotVec surfsKnot ((buildGroups conKnot).getD 0 [])).getD
        ((groupKnotVec surfsKnot ((buildGroups conKnot).getD 0 [])).length - 1 - 0) 0 = 1 :=
  ⟨by decide, by decide, by decide,
    groupKnotVec_symmetric_off_middle surfsKnot _ (by decide) 0 (by decide)
      (Or.inr (by decide))⟩

/-- C5 counterexample: the group joining edge 0 of the two `surfsKnot` patches
contains a reversed edge, the propagated (shared) `tu` vector of its members
has odd length 5 and middle entry 3/10, and `knot[2] + knot[5-1-2] = 3/5 ≠ 1`. -/
theorem knotSymmetry_fails_at_middle :
    (∃ r ∈ (buildGroups conKnot).getD 0 [], r.dir = -1) ∧
    ((propagateKnotVectors surfsKnot conKnot).getD 0 default).tu =
      ((propagateKnotVectors surfsKnot conKnot).getD 1 default).tu ∧
    ((propagateKnotVectors surfsKnot conKnot).getD 0 default).tu.length = 5 ∧
    ¬ (((propagateKnotVectors surfsKnot conKnot).getD 0 default).tu.getD 2 0 +
        ((propagateKnotVectors surfsKnot conKnot).getD 0 default).tu.getD (5 - 1 - 2) 0 = 1) := by
  have h0 : ((propagateKnotVectors surfsKnot conKnot).getD 0 default).tu =
      [0, 0, 3/10, 1, 1] := by
    norm_num [propagateKnotVectors, buildGroups, conKnot, surfsKnot, mirrorRec, pyIdx,
      groupKnotVec, groupFirstKnot, groupSymmetric, symKnot, symBeg, writeKnot]
  have h1 : ((propagateKnotVectors surfsKnot conKnot).getD 1 default).tu =
      [0, 0, 3/10, 1, 1] := by
    norm_num [propagateKnotVectors, buildGroups, conKnot, surfsKnot, mirrorRec, pyIdx,
      groupKnotVec, groupFirstKnot, groupSymmetric, symKnot, symBeg, writeKnot]
  refine ⟨by decide, by rw [h0, h1], by rw [h0]; rfl, ?_⟩
  rw [h0]
  norm_num [List.getD]

/-! ## C6: connectivity-table round trip -/

/-- Parsing the row written for a well-formed record restores the record. -/
theorem parseEdge_write_info (i : Nat) (r : EdgeRec) (h : WfEdge r) :
    parseEdge (write_info i r) = r := by
  cases r with | mk t f1 e1 dof cont dir dg nctl f2 e2 =>
  rcases h with ⟨h0, hc, hd, hf, he⟩ | ⟨h1, hdof⟩ <;>
    simp_all [parseEdge, write_info, List.getD]

theorem parse_write_zip (ns : List Nat) (l : List EdgeRec)
    (hlen : ns.length = l.length) (h : ∀ r ∈ l, WfEdge r) :
    (ns.zip l).map (fun p => parseEdge (write_info p.1 p.2)) = l := by
  induction l generalizing ns with
  | nil =>
    cases ns with
    | nil => rfl
    | cons a t => simp at hlen
  | cons r l ih =>
    cases ns with
    | nil => simp at hlen
    | cons n ns =>
      simp only [List.zip_cons_cons, List.map_cons]
      rw [parseEdge_write_info n r (h r (by simp)),
        ih ns (by simpa using hlen) (fun r hr => h r (by simp [hr]))]

theorem readEdgeConnectivity_writeEdgeConnectivity (con : List EdgeRec)
    (h : ∀ r ∈ con, WfEdge r) :
    readEdgeConnectivity (writeEdgeConnectivity con) = con := by
  show (((List.range con.length).zip con).map (fun p => write_info p.1 p.2)).map
    parseEdge = con
  rw [List.map_map]
  exact parse_write_zip _ _ (by simp) h

/-- C6: writing the connectivity table and reading it back reproduces every
field of every record exactly, and re-running `_setEdgeConnectivity` on the
re-read table reconstructs the identical global-indexer state. -/
theorem edgeConnectivity_roundtrip (surfs : List Surf) (con : List EdgeRec)
    (h : ∀ r ∈ con, WfEdge r) :
    readEdgeConnectivity (writeEdgeConnectivity con) = con ∧
    setEdgeConnectivity surfs (readEdgeConnectivity (writeEdgeConnectivity con)) =
      setEdgeConnectivity surfs con := by
  have e := readEdgeConnectivity_writeEdgeConnectivity con h
  exact ⟨e, by rw [e]⟩

/-- Witness for C6 on the two-patch scenario's connectivity table. -/
theorem edgeConnectivity_roundtrip_witness :
    (∀ r ∈ conTwo, WfEdge r) ∧
    readEdgeConnectivity (writeEdgeConnectivity conTwo) = conTwo :=
  ⟨by decide, (edgeConnectivity_roundtrip surfsTwo conTwo (by decide)).1⟩

/-! ## C4: update is not idempotent in general -/

theorem CQ_add_def (a b : CQ) : a + b = ⟨a.re + b.re, a.im + b.im⟩ := rfl

theorem CQ_sub_def (a b : CQ) : a - b = ⟨a.re - b.re, a.im - b.im⟩ := rfl

theorem CQ_mul_def (a b : CQ) :
    a * b = ⟨a.re * b.re - a.im * b.im, a.re * b.im + a.im * b.re⟩ := rfl

theorem Vec3_add_def (a b : Vec3) : a + b = ⟨a.x + b.x, a.y + b.y, a.z + b.z⟩ := rfl

theorem getD_oob {α : Type} {k : Nat} (l : List α) (d : α) (h : l.length ≤ k) :
    l.getD k d = d := by
  induction l generalizing k with
  | nil => simp [List.getD]
  | cons a l ih =>
    cases k with
    | zero => simp at h
    | succ k => simpa [List.getD] using ih (by simpa using h)

theorem length_applyWrites (ws : List (Nat × Vec3)) :
    ∀ c : List Vec3, (applyWrites c ws).length = c.length := by
  induction ws with
  | nil => intro c; rfl
  | cons p ws ih =>
    intro c
    show (applyWrites (c.set p.1 p.2) ws).length = c.length
    rw [ih, List.length_set]

theorem applyWrites_getD_not_mem (ws : List (Nat × Vec3)) :
    ∀ (c : List Vec3) (k : Nat), k ∉ ws.map Prod.fst →
      (applyWrites c ws).getD k 0 = c.getD k 0 := by
  induction ws with
  | nil => intro c k _; rfl
  | cons p ws ih =>
    intro c k hk
    have hk1 : k ∉ ws.map Prod.fst := fun h => hk (by simp [h])
    have hkp : k ≠ p.1 := fun h => hk (by simp [h])
    show (applyWrites (c.set p.1 p.2) ws).getD k 0 = c.getD k 0
    rw [ih _ k hk1, getD_set_ne _ _ _ hkp]

theorem applyWrites_eq_of_agree (ws : List (Nat × Vec3)) :
    ∀ c d : List Vec3, c.length = d.length →
      (∀ k, k ∉ ws.map Prod.fst → c.getD k 0 = d.getD k 0) →
      applyWrites c ws = applyWrites d ws := by
  induction ws with
  | nil =>
    intro c d hlen hpt
    show c = d
    exact list_eq_of_getD 0 c d hlen (fun k => hpt k (by simp))
  | cons p ws ih =>
    intro c d hlen hpt
    show applyWrites (c.set p.1 p.2) ws = applyWrites (d.set p.1 p.2) ws
    refine ih _ _ (by simp [hlen]) ?_
    intro k hk
    by_cases hkp : k = p.1
    · by_cases hlt : p.1 < c.length
      · rw [hkp, getD_set_lt _ _ _ hlt, getD_set_lt _ _ _ (by omega)]
      · rw [set_oob _ _ (by omega), set_oob _ _ (by omega),
          getD_oob _ _ (by omega), getD_oob _ _ (by omega)]
    · rw [getD_set_ne _ _ _ hkp, getD_set_ne _ _ _ hkp]
      exact hpt k (by simp [hk, hkp])

theorem applyWrites_idem (ws : List (Nat × Vec3)) (c : List Vec3) :
    applyWrites (applyWrites c ws) ws = applyWrites c ws :=
  applyWrites_eq_of_agree ws _ c (length_applyWrites ws c)
    (fun k hk => applyWrites_getD_not_mem ws c k hk)

theorem map_real_getD (l : List Vec3) (k : Nat) :
    (l.map Vec3.real).getD k 0 = (l.getD k 0).real := by
  induction l generalizing k with
  | nil => rfl
  | cons a l ih =>
    cases k with
    | zero => rfl
    | succ k => simpa [List.getD] using ih k

theorem Vec3_real_real (v : Vec3) : v.real.real = v.real := rfl

theorem mapReal_applyWrites_congr (ws : List (Nat × Vec3)) :
    ∀ c d : List Vec3, c.length = d.length →
      (∀ k, (c.getD k 0).real = (d.getD k 0).real) →
      (applyWrites c ws).map Vec3.real = (applyWrites d ws).map Vec3.real := by
  induction ws with
  | nil =>
    intro c d hlen hpt
    show c.map Vec3.real = d.map Vec3.real
    refine list_eq_of_getD 0 _ _ (by simp [hlen]) ?_
    intro k
    rw [map_real_getD, map_real_getD, hpt k]
  | cons p ws ih =>
    intro c d hlen hpt
    show (applyWrites (c.set p.1 p.2) ws).map Vec3.real =
      (applyWrites (d.set p.1 p.2) ws).map Vec3.real
    refine ih _ _ (by simp [hlen]) ?_
    intro k
    by_cases hkp : k = p.1
    · by_cases hlt : p.1 < c.length
      · rw [hkp, getD_set_lt _ _ _ hlt, getD_set_lt _ _ _ (by omega)]
      · rw [set_oob _ _ (by omega), set_oob _ _ (by omega)]
        exact hpt k
    · rw [getD_set_ne _ _ _ hkp, getD_set_ne _ _ _ hkp]
      exact hpt k

theorem raUpdate_raUpdate (ra : RefAxis) : raUpdate (raUpdate ra) = raUpdate ra := by
  cases ra
  rfl

theorem map_raUpdate_idem (l : List RefAxis) :
    (l.map raUpdate).map raUpdate = l.map raUpdate := by
  rw [List.map_map]
  exact List.map_congr_left (fun a _ => raUpdate_raUpdate a)

/-- The coefficient part of `_updateCoef` without local design variables: the
coefficient writes of the refreshed axis list applied to the stored
coefficients. -/
theorem updateCoef_fst_no_local (ext : Ext) (b : Bool) (s : PState)
    (hs : s.DV_listLocal = []) :
    (updateCoef ext s b).1 =
      applyWrites s.coef
        ((axesPipeline ext s.ref_axis_con
          (applyGlobalDVs s.DV_listGlobal s.ref_axis)).flatMap (linkWrites ext)) := by
  unfold updateCoef
  rw [hs]
  rfl

/-- C4 (amended): `update()` is idempotent when the global design-variable
functions leave the once-updated axis list fixed (set-style rather than
incremental update functions), no local design variables are registered and no
reference-axis connections are present.  In general it is not: the
design-variable functions are re-applied to the already-mutated axis state on
every call (see `update_not_idempotent`). -/
theorem update_idempotent_of_fixed (ext : Ext) (st : PState)
    (hloc : st.DV_listLocal = []) (hcon : st.ref_axis_con = [])
    (hfix : applyGlobalDVs st.DV_listGlobal (update ext st).ref_axis =
      (update ext st).ref_axis) :
    (update ext (update ext st)).coef = (update ext st).coef := by
  have hax1 : (update ext st).ref_axis =
      axesPipeline ext st.ref_axis_con
        (applyGlobalDVs st.DV_listGlobal st.ref_axis) := rfl
  have hdv1 : (update ext st).DV_listGlobal = st.DV_listGlobal := rfl
  have hcon1 : (update ext st).ref_axis_con = st.ref_axis_con := rfl
  have hcoef1 : (update ext st).coef = (updateCoef ext st true).1.map Vec3.real := rfl
  have hcoef2 : (update ext (update ext st)).coef =
      (updateCoef ext (update ext st) true).1.map Vec3.real := rfl
  have hpipe0 : ∀ X : List RefAxis, axesPipeline ext [] X = X.map raUpdate := by
    intro X
    unfold axesPipeline
    rw [if_neg (by simp)]
  have hfix' : applyGlobalDVs st.DV_listGlobal
      (axesPipeline ext st.ref_axis_con
        (applyGlobalDVs st.DV_listGlobal st.ref_axis)) =
      axesPipeline ext st.ref_axis_con
        (applyGlobalDVs st.DV_listGlobal st.ref_axis) := by
    rw [← hax1]
    exact hfix
  have hpipe : axesPipeline ext st.ref_axis_con
      (axesPipeline ext st.ref_axis_con
        (applyGlobalDVs st.DV_listGlobal st.ref_axis)) =
      axesPipeline ext st.ref_axis_con
        (applyGlobalDVs st.DV_listGlobal st.ref_axis) := by
    rw [hcon, hpipe0, hpipe0, map_raUpdate_idem]
  rw [hcoef2]
  rw [updateCoef_fst_no_local ext true (update ext st)
    (show (update ext st).DV_listLocal = [] from hloc)]
  rw [hdv1, hcon1, hax1, hfix', hpipe]
  have hc1 : (update ext st).coef =
      (applyWrites st.coef
        ((axesPipeline ext st.ref_axis_con
          (applyGlobalDVs st.DV_listGlobal st.ref_axis)).flatMap
            (linkWrites ext))).map Vec3.real := by
    rw [hcoef1, updateCoef_fst_no_local ext true st hloc]
  rw [hc1]
  rw [mapReal_applyWrites_congr _ _ (applyWrites st.coef _)
    (by rw [List.length_map, length_applyWrites])
    (fun k => by rw [map_real_getD, Vec3_real_real])]
  rw [applyWrites_idem]

/-- C4 counterexample: one incremental (translate-by-value) global design
variable; the second `update()` shifts the attached coefficient again, so the
two calls disagree. -/
theorem CQ_zero_def : (0 : CQ) = ⟨0, 0⟩ := rfl

theorem CQ_one_def : (1 : CQ) = ⟨1, 0⟩ := rfl

theorem Vec3_zero_def : (0 : Vec3) = ⟨⟨0, 0⟩, ⟨0, 0⟩, ⟨0, 0⟩⟩ := rfl

theorem CQ_zero_re : (0 : CQ).re = 0 := rfl

theorem CQ_zero_im : (0 : CQ).im = 0 := rfl

theorem CQ_one_re : (1 : CQ).re = 1 := rfl

theorem CQ_one_im : (1 : CQ).im = 0 := rfl

theorem Vec3_zero_x : (0 : Vec3).x = 0 := rfl

theorem Vec3_zero_y : (0 : Vec3).y = 0 := rfl

theorem Vec3_zero_z : (0 : Vec3).z = 0 := rfl

theorem none_ne_some_true : ((none : Option Bool) = some true) = False := by simp

theorem update_not_idempotent :
    (update extLin (update extLin stShift)).coef ≠ (update extLin stShift).coef := by
  have h1 : (update extLin stShift).coef = [vX 1] := by
    norm_num [update, updateSurfaceCoef, updateCoef, applyGlobalDVs, axesPipeline,
      raUpdate, applyWrites, linkWrites, linkVal, stShift, dvShift, axTwo, extLin,
      vX, vsmul, Vec3.real, CQ.real, CQ_add_def, CQ_sub_def, CQ_mul_def,
      Vec3_add_def, CQ_zero_def, CQ_one_def, Vec3_zero_def, CQ_zero_re,
      CQ_zero_im, CQ_one_re, CQ_one_im, Vec3_zero_x, Vec3_zero_y, Vec3_zero_z,
      none_ne_some_true, List.getD]
    all_goals rfl
  have h2 : (update extLin (update extLin stShift)).coef = [vX 2] := by
    norm_num [update, updateSurfaceCoef, updateCoef, applyGlobalDVs, axesPipeline,
      raUpdate, applyWrites, linkWrites, linkVal, stShift, dvShift, axTwo, extLin,
      vX, vsmul, Vec3.real, CQ.real, CQ_add_def, CQ_sub_def, CQ_mul_def,
      Vec3_add_def, CQ_zero_def, CQ_one_def, Vec3_zero_def, CQ_zero_re,
      CQ_zero_im, CQ_one_re, CQ_one_im, Vec3_zero_x, Vec3_zero_y, Vec3_zero_z,
      none_ne_some_true, List.getD]
    all_goals rfl
  rw [h1, h2]
  simp only [ne_eq, List.cons.injEq, and_true]
  intro h
  have hx := congrArg (fun v : Vec3 => v.x.re) h
  norm_num [vX] at hx

/-- A state with no design variables at all: the fixed-point hypothesis of the
amended statement holds definitionally. -/
def stNoDV : PState :=
  { coef := [0], surfs := [], global_coef := [[(0, 0, 0)]], ref_axis := [axTwo],
    ref_axis_con := [], DV_listGlobal := [], DV_listLocal := [] }

/-- Witness for C4's amended statement. -/
theorem update_idempotent_of_fixed_witness :
    stNoDV.DV_listLocal = [] ∧ stNoDV.ref_axis_con = [] ∧
    applyGlobalDVs stNoDV.DV_listGlobal (update extLin stNoDV).ref_axis =
      (update extLin stNoDV).ref_axis ∧
    (update extLin (update extLin stNoDV)).coef = (update extLin stNoDV).coef :=
  ⟨rfl, rfl, rfl, update_idempotent_of_fixed extLin stNoDV rfl rfl rfl⟩

/-! ## C8: every face/edge pair is referenced by exactly one record -/

theorem countP_map_zip {α : Type} (q : EdgeRec → Bool) (q' : α → Bool)
    (F : Nat × α → EdgeRec) (hF : ∀ p : Nat × α, q (F p) = q' p.2) :
    ∀ (ns : List Nat) (l : List α), ns.length = l.length →
      ((ns.zip l).map F).countP q = l.countP q' := by
  intro ns l
  induction l generalizing ns with
  | nil =>
    intro _
    cases ns <;> rfl
  | cons a l ih =>
    intro hlen
    cases ns with
    | nil => simp at hlen
    | cons nn ns =>
      simp only [List.zip_cons_cons, List.map_cons, List.countP_cons]
      rw [ih ns (by simpa using hlen), hF ⟨nn, a⟩]

theorem referencesFE_joinedRec (r : RawJoined) (d : Int) (f e : Nat) :
    referencesFE (joinedRec r d) f e ↔ (r.a = (f, e) ∨ r.b = (f, e)) := by
  simp [referencesFE, joinedRec, Prod.ext_iff]

theorem referencesFE_mirrorRec (a : Nat × Nat) (d : Int) (f e : Nat) :
    referencesFE (mirrorRec a d) f e ↔ a = (f, e) := by
  simp [referencesFE, mirrorRec, Prod.ext_iff]

/-- With no duplicated joined edge, the joined records referencing a pair are
counted by its membership in the flattened joined edge list. -/
theorem joined_refCount (c : Nat × Nat) :
    ∀ eCon : List RawJoined, (joinedEdgeList eCon).Nodup →
      (eCon.countP (fun r => decide (r.a = c ∨ r.b = c))) =
        if c ∈ joinedEdgeList eCon then 1 else 0 := by
  intro eCon
  induction eCon with
  | nil =>
    intro _
    simp [joinedEdgeList]
  | cons r t ih =>
    intro hnd
    have hjel : joinedEdgeList (r :: t) = r.a :: r.b :: joinedEdgeList t := rfl
    rw [hjel] at hnd
    rw [hjel, List.countP_cons, ih (hnd.of_cons.of_cons)]
    rcases List.nodup_cons.mp hnd with ⟨ha, hnd1⟩
    rcases List.nodup_cons.mp hnd1 with ⟨hb, _⟩
    by_cases hca : c = r.a
    · have hnot : c ∉ joinedEdgeList t := by
        intro h
        exact ha (by simp [← hca, h])
      simp [hca.symm, hnot]
    · by_cases hcb : c = r.b
      · have hnot : c ∉ joinedEdgeList t := fun h => hb (hcb ▸ h)
        simp [hcb.symm, hnot, fun h : r.a = c => hca h.symm]
      · simp only [decide_eq_true_eq, List.mem_cons]
        rw [if_neg (show ¬(r.a = c ∨ r.b = c) by
          rintro (h | h)
          exacts [hca h.symm, hcb h.symm])]
        by_cases hm : c ∈ joinedEdgeList t
        · rw [if_pos hm, if_pos (Or.inr (Or.inr hm))]
        · rw [if_neg hm, if_neg (by
            rintro (h | h | h)
            exacts [hca h, hcb h, hm h])]

theorem mirrored_fold (jel : List (Nat × Nat)) :
    ∀ (L : List (Nat × Nat)) (acc : List (Nat × Nat)), L.Nodup →
      (∀ x ∈ L, x ∉ acc) →
      L.foldl (fun acc e => if e ∈ jel ∨ e ∈ acc then acc else acc ++ [e]) acc =
        acc ++ L.filter (fun e => decide (e ∉ jel)) := by
  intro L
  induction L with
  | nil =>
    intro acc _ _
    simp
  | cons e t ih =>
    intro acc hnd hdis
    rcases List.nodup_cons.mp hnd with ⟨he, hnd1⟩
    show t.foldl _ (if e ∈ jel ∨ e ∈ acc then acc else acc ++ [e]) = _
    by_cases hej : e ∈ jel
    · rw [if_pos (Or.inl hej)]
      rw [ih acc hnd1 (fun x hx => hdis x (by simp [hx]))]
      simp [hej]
    · have hea : e ∉ acc := hdis e (by simp)
      rw [if_neg (by tauto)]
      rw [ih (acc ++ [e]) hnd1 ?_]
      · simp [hej]
      · intro x hx
        simp only [List.mem_append, List.mem_singleton]
        rintro (h | h)
        · exact hdis x (by simp [hx]) h
        · exact he (h ▸ hx)

theorem allFE_nodup (n : Nat) : (allFE n).Nodup := by
  show ((List.range n).product (List.range 4)).Nodup
  exact List.Nodup.product (List.nodup_range n) (List.nodup_range 4)

theorem allFE_mem (n f e : Nat) : (f, e) ∈ allFE n ↔ f < n ∧ e < 4 := by
  simp [allFE]

theorem mirroredOf_eq (jel : List (Nat × Nat)) (n : Nat) :
    mirroredOf jel n = (allFE n).filter (fun e => decide (e ∉ jel)) := by
  unfold mirroredOf
  rw [mirrored_fold jel (allFE n) [] (allFE_nodup n) (by simp)]
  simp

theorem nodup_countP_single (c : Nat × Nat) :
    ∀ L : List (Nat × Nat), L.Nodup →
      L.countP (fun a => decide (a = c)) = if c ∈ L then 1 else 0 := by
  intro L
  induction L with
  | nil => simp
  | cons a t ih =>
    intro hnd
    rcases List.nodup_cons.mp hnd with ⟨ha, hnd1⟩
    rw [List.countP_cons, ih hnd1]
    by_cases hc : a = c
    · have : c ∉ t := hc ▸ ha
      simp [hc, this]
    · simp only [decide_eq_true_eq, List.mem_cons]
      rw [if_neg (show ¬(a = c) from hc)]
      by_cases hm : c ∈ t
      · rw [if_pos hm, if_pos (Or.inr hm)]
      · rw [if_neg hm, if_neg (by
          rintro (h | h)
          exacts [hc h.symm, hm h])]

/-- C8: after `calcEdgeConnectivity`, every `(face,edge)` pair of every patch
is referenced by exactly one record of the connectivity table — as the first
or second member of a joined record or alone in a free record — provided the
coincidence scan paired each edge with at most one partner (no duplicated
entry in the flattened joined edge list). -/
theorem calcEdgeConnectivity_coverage (te : TestEdge) (n f e : Nat)
    (hf : f < n) (he : e < 4)
    (hnd : (joinedEdgeList (eConOf te n)).Nodup) :
    refCount (calcEdgeConnectivity te n) f e = 1 := by
  unfold refCount calcEdgeConnectivity
  rw [List.countP_append]
  rw [countP_map_zip _ (fun r => decide (r.a = (f, e) ∨ r.b = (f, e))) _
    (fun p => by rw [decide_eq_decide]; exact referencesFE_joinedRec p.2 _ f e)
    _ _ (by simp)]
  rw [countP_map_zip _ (fun a => decide (a = (f, e))) _
    (fun p => by rw [decide_eq_decide]; exact referencesFE_mirrorRec p.2 _ f e)
    _ _ (by simp)]
  rw [joined_refCount (f, e) _ hnd, mirroredOf_eq, List.countP_filter]
  by_cases hin : (f, e) ∈ joinedEdgeList (eConOf te n)
  · rw [if_pos hin]
    have hz : (allFE n).countP
        (fun a => decide (a = (f, e)) && decide (a ∉ joinedEdgeList (eConOf te n))) =
        0 := by
      rw [List.countP_eq_zero]
      intro a _
      simp only [Bool.and_eq_true, decide_eq_true_eq, not_and]
      intro h1 h2
      exact h2 (h1 ▸ hin)
    rw [hz]
  · rw [if_neg hin]
    have hc : (allFE n).countP
        (fun a => decide (a = (f, e)) && decide (a ∉ joinedEdgeList (eConOf te n))) =
        (allFE n).countP (fun a => decide (a = (f, e))) := by
      apply List.countP_congr
      intro a _
      by_cases h : a = (f, e)
      · simp [h, hin]
      · simp [h]
    rw [hc, nodup_countP_single (f, e) _ (allFE_nodup n),
      if_pos ((allFE_mem n f e).mpr ⟨hf, he⟩)]

/-- Witness for C8 on the two-patch scenario at patch 1, edge 0 (the slave side
of the joined record). -/
theorem calcEdgeConnectivity_coverage_witness :
    (1 : Nat) < 2 ∧ (0 : Nat) < 4 ∧
    (joinedEdgeList (eConOf teTwo 2)).Nodup ∧
    refCount (calcEdgeConnectivity teTwo 2) 1 0 = 1 :=
  ⟨by decide, by decide, by decide,
    calcEdgeConnectivity_coverage teTwo 2 1 0 (by decide) (by decide) (by decide)⟩

/-! ## C1: the global-indexer alias invariant -/

theorem cellCount_nil (c : Nat × Nat × Nat) : cellCount [] c = 0 := rfl

theorem cellCount_append (gc1 gc2 : List (List (Nat × Nat × Nat)))
    (c : Nat × Nat × Nat) :
    cellCount (gc1 ++ gc2) c = cellCount gc1 c + cellCount gc2 c := by
  simp [cellCount]

theorem count_single (x c : Nat × Nat × Nat) :
    List.count c [x] = if c = x then 1 else 0 := by
  by_cases h : c = x
  · subst h; simp
  · simp [h, List.count_eq_zero]

theorem cellCount_new (gc : List (List (Nat × Nat × Nat))) (x c : Nat × Nat × Nat) :
    cellCount (gc ++ [[x]]) c = cellCount gc c + if c = x then 1 else 0 := by
  rw [cellCount_append]
  congr 1
  show (List.count c [x] + 0) = _
  rw [count_single]
  omega

theorem cellCount_appendAt {k : Nat} (gc : List (List (Nat × Nat × Nat)))
    (x c : Nat × Nat × Nat) (hk : k < gc.length) :
    cellCount (appendAt gc k x) c = cellCount gc c + if c = x then 1 else 0 := by
  induction gc generalizing k with
  | nil => simp at hk
  | cons en t ih =>
    cases k with
    | zero =>
      show cellCount ((en ++ [x]) :: t) c = _
      simp only [cellCount, List.map_cons, List.sum_cons, List.count_append]
      rw [count_single]
      show en.count c + (if c = x then 1 else 0) + (t.map (fun e => e.count c)).sum = _
      omega
    | succ k =>
      show cellCount (en :: appendAt t k x) c = _
      simp only [cellCount, List.map_cons, List.sum_cons]
      have := ih (by simpa using hk)
      simp only [cellCount] at this
      omega

theorem length_appendAt (gc : List (List (Nat × Nat × Nat))) (k : Nat)
    (x : Nat × Nat × Nat) : (appendAt gc k x).length = gc.length := by
  simp [appendAt]

theorem cellCount_zero_of_entries (gc : List (List (Nat × Nat × Nat)))
    (c : Nat × Nat × Nat) (h : ∀ en ∈ gc, c ∉ en) : cellCount gc c = 0 := by
  induction gc with
  | nil => rfl
  | cons en t ih =>
    simp only [cellCount, List.map_cons, List.sum_cons]
    rw [List.count_eq_zero.mpr (h en (by simp))]
    simpa [cellCount] using ih (fun e he => h e (by simp [he]))

theorem containCount_zero_of_cellCount (gc : List (List (Nat × Nat × Nat)))
    (c : Nat × Nat × Nat) (h : cellCount gc c = 0) : containCount gc c = 0 := by
  induction gc with
  | nil => rfl
  | cons en t ih =>
    simp only [cellCount, List.map_cons, List.sum_cons] at h
    have h1 : en.count c = 0 := by omega
    have h2 : cellCount t c = 0 := by simp only [cellCount]; omega
    have hmem : c ∉ en := List.count_eq_zero.mp h1
    have ht := ih h2
    simp only [containCount, List.countP_cons] at ht ⊢
    simp [hmem, ht]

theorem containCount_one_of_cellCount (gc : List (List (Nat × Nat × Nat)))
    (c : Nat × Nat × Nat) (h : cellCount gc c = 1) : containCount gc c = 1 := by
  induction gc with
  | nil => simp [cellCount] at h
  | cons en t ih =>
    simp only [cellCount, List.map_cons, List.sum_cons] at h
    by_cases h1 : en.count c = 0
    · have h2 : cellCount t c = 1 := by simp only [cellCount]; omega
      have hmem : c ∉ en := List.count_eq_zero.mp h1
      have ht := ih h2
      simp only [containCount, List.countP_cons] at ht ⊢
      simp [hmem, ht]
    · have h2 : cellCount t c = 0 := by simp only [cellCount]; omega
      have hmem : c ∈ en := List.count_pos_iff.mp (by omega)
      have ht := containCount_zero_of_cellCount t c h2
      simp only [containCount, List.countP_cons] at ht ⊢
      simp [hmem, ht]

theorem mem_entries_appendAt (gc : List (List (Nat × Nat × Nat))) (k : Nat)
    (x : Nat × Nat × Nat) {en : List (Nat × Nat × Nat)} {c : Nat × Nat × Nat}
    (hen : en ∈ appendAt gc k x) (hc : c ∈ en) :
    (∃ en0 ∈ gc, c ∈ en0) ∨ c = x := by
  rcases List.mem_or_eq_of_mem_set hen with h | h
  · exact Or.inl ⟨en, h, hc⟩
  · subst h
    rcases List.mem_append.mp hc with h | h
    · by_cases hk : k < gc.length
      · exact Or.inl ⟨gc.getD k [], by
          rw [List.getD_eq_getElem _ _ hk]
          exact List.getElem_mem hk, h⟩
      · rw [getD_oob _ _ (by omega)] at h
        simp at h
    · simp at h
      exact Or.inr h

theorem setGIdx_self (g : Nat → Nat → Nat → Nat) (p i j v : Nat) :
    setGIdx g p i j v p i j = v := by
  simp [setGIdx]

theorem setGIdx_ne (g : Nat → Nat → Nat → Nat) (p i j v p' i' j' : Nat)
    (h : ¬(p' = p ∧ i' = i ∧ j' = j)) :
    setGIdx g p i j v p' i' j' = g p' i' j' := by
  simp [setGIdx, h]

/-- The cells of the first `s` patches (the part of the control grid already
processed when patch `s` starts). -/
def cellBelow (surfs : List Surf) (s : Nat) (c : Nat × Nat × Nat) : Prop :=
  c.1 < s ∧ c.2.1 < (surfs.getD c.1 ⟨0, 0⟩).Nctlu ∧
    c.2.2 < (surfs.getD c.1 ⟨0, 0⟩).Nctlv

/-- The running invariant of `_setEdgeConnectivity` over the set `P` of already
processed cells: the counter equals the number of `global_coef` entries, every
processed cell appears in the entries with total multiplicity one, entries hold
only processed cells, the stored global index of a processed cell addresses an
existing entry, and `lastPatchID` (when assigned) names a fully processed
patch. -/
structure GIInv (surfs : List Surf) (P : Nat × Nat × Nat → Prop) (st : GIState) :
    Prop where
  hlen : st.counter = st.global_coef.length
  hone : ∀ c, P c → cellCount st.global_coef c = 1
  hmem : ∀ en ∈ st.global_coef, ∀ c ∈ en, P c
  hidx : ∀ c, P c → st.gIdx c.1 c.2.1 c.2.2 < st.counter
  hlast : ∀ p, st.lastPatchID = some p → p < surfs.length ∧
    ∀ c ∈ surfCells surfs p, P c

theorem GIInv_congr {surfs : List Surf} {P Q : Nat × Nat × Nat → Prop}
    {st : GIState} (h : ∀ c, P c ↔ Q c) (hP : GIInv surfs P st) :
    GIInv surfs Q st := by
  obtain ⟨h1, h2, h3, h4, h5⟩ := hP
  exact ⟨h1, fun c hc => h2 c ((h c).mpr hc),
    fun en hen c hc => (h c).mp (h3 en hen c hc),
    fun c hc => h4 c ((h c).mpr hc),
    fun p hp => ⟨(h5 p hp).1, fun c hc => (h c).mp ((h5 p hp).2 c hc)⟩⟩

theorem triple_eq_of_parts {x c : Nat × Nat × Nat}
    (h : x.1 = c.1 ∧ x.2.1 = c.2.1 ∧ x.2.2 = c.2.2) : x = c := by
  obtain ⟨a, b, d⟩ := x
  obtain ⟨a', b', d'⟩ := c
  simp_all

theorem surfCells_mem (surfs : List Surf) (p : Nat) (c : Nat × Nat × Nat) :
    c ∈ surfCells surfs p ↔ c.1 = p ∧ c.2.1 < (surfs.getD p ⟨0, 0⟩).Nctlu ∧
      c.2.2 < (surfs.getD p ⟨0, 0⟩).Nctlv := by
  obtain ⟨a, b, d⟩ := c
  simp only [surfCells, List.mem_flatMap, List.mem_map, List.mem_range]
  constructor
  · rintro ⟨i, hi, j, hj, he⟩
    obtain ⟨rfl, rfl, rfl⟩ := Prod.mk.injEq .. ▸ he
    exact ⟨rfl, hi, hj⟩
  · rintro ⟨rfl, hb, hd⟩
    exact ⟨b, hb, d, hd, rfl⟩

theorem surfCells_nodup (surfs : List Surf) (p : Nat) :
    (surfCells surfs p).Nodup := by
  have he : surfCells surfs p =
      ((List.range (surfs.getD p ⟨0, 0⟩).Nctlu).product
        (List.range (surfs.getD p ⟨0, 0⟩).Nctlv)).map (fun q => (p, q)) := by
    unfold surfCells List.product
    simp only [List.map_flatMap, List.map_map]
    rfl
  rw [he]
  refine List.Nodup.map ?_
    (List.Nodup.product (List.nodup_range _) (List.nodup_range _))
  intro x y hxy
  simpa using hxy

theorem dims_pos (surfs : List Surf)
    (hdims : ∀ su ∈ surfs, 1 ≤ su.Nctlu ∧ 1 ≤ su.Nctlv)
    (p : Nat) (hp : p < surfs.length) :
    1 ≤ (surfs.getD p ⟨0, 0⟩).Nctlu ∧ 1 ≤ (surfs.getD p ⟨0, 0⟩).Nctlv := by
  have hmem : surfs.getD p ⟨0, 0⟩ ∈ surfs := by
    rw [List.getD_eq_getElem _ _ hp]
    exact List.getElem_mem hp
  exact hdims _ hmem

theorem edgeLen_pos (surfs : List Surf) (p e : Nat)
    (hu : 1 ≤ (surfs.getD p ⟨0, 0⟩).Nctlu)
    (hv : 1 ≤ (surfs.getD p ⟨0, 0⟩).Nctlv) :
    1 ≤ edgeLen surfs p e := by
  unfold edgeLen
  split <;> assumption

theorem findConIndex_false (con : List EdgeRec) (f e : Nat) (r : EdgeRec)
    (h : findConIndex con f e = some (r, false)) :
    r ∈ con ∧ r.f2 = (f : Int) ∧ r.e2 = (e : Int) := by
  induction con with
  | nil => simp [findConIndex] at h
  | cons a t ih =>
    simp only [findConIndex] at h
    split_ifs at h with h1 h2
    · simp at h
    · obtain ⟨rfl, -⟩ : a = r ∧ True := by
        have := Option.some.inj h
        exact ⟨congrArg Prod.fst this, trivial⟩
      exact ⟨List.mem_cons_self a t, h2.1, h2.2⟩
    · have := ih h
      exact ⟨List.mem_cons_of_mem _ this.1, this.2⟩

theorem slave_record_facts (surfs : List Surf) (con : List EdgeRec)
    (hval : ValidCon surfs con) (f e : Nat) (r : EdgeRec)
    (h : findConIndex con f e = some (r, false)) :
    r.f1 < surfs.length ∧ r.f1 < f ∧
      edgeLen surfs r.f1 r.e1 = edgeLen surfs f e := by
  obtain ⟨hrc, hf2, he2⟩ := findConIndex_false con f e r h
  obtain ⟨hdims, hrec⟩ := hval
  obtain ⟨hf1, htype, hfree, hjoin⟩ := hrec r hrc
  have ht1 : r.type = 1 := by
    rcases htype with h0 | h1
    · exfalso
      have := hfree h0
      rw [hf2] at this
      omega
    · exact h1
  obtain ⟨hlt, -, hlen⟩ := hjoin ht1
  refine ⟨hf1, ?_, ?_⟩
  · rw [hf2] at hlt
    exact_mod_cast hlt
  · rw [hf2, he2] at hlen
    simpa [Int.toNat_natCast] using hlen

theorem getGlobalIndexEdge_lt (surfs : List Surf) (st : GIState) (p e idx : Nat)
    (dir : Int)
    (hgrid : ∀ a b, a < (surfs.getD p ⟨0, 0⟩).Nctlu →
      b < (surfs.getD p ⟨0, 0⟩).Nctlv → st.gIdx p a b < st.counter)
    (hu : 1 ≤ (surfs.getD p ⟨0, 0⟩).Nctlu)
    (hv : 1 ≤ (surfs.getD p ⟨0, 0⟩).Nctlv)
    (hidxlt : idx < edgeLen surfs p e) :
    getGlobalIndexEdge (surfs.getD p ⟨0, 0⟩) (st.gIdx p) e idx dir
      < st.counter := by
  have hN : (if e = 0 ∨ e = 1 then (surfs.getD p ⟨0, 0⟩).Nctlu
      else (surfs.getD p ⟨0, 0⟩).Nctlv) = edgeLen surfs p e := rfl
  simp only [getGlobalIndexEdge, hN]
  have hK : (if dir = 1 then idx else edgeLen surfs p e - 1 - idx)
      < edgeLen surfs p e := by
    split_ifs <;> omega
  by_cases h0 : e = 0
  · subst h0
    have hL : edgeLen surfs p 0 = (surfs.getD p ⟨0, 0⟩).Nctlu := by
      unfold edgeLen
      rw [if_pos (Or.inl rfl)]
    rw [if_pos rfl]
    exact hgrid _ _ (by rw [← hL]; exact hK) (by omega)
  · rw [if_neg h0]
    by_cases h1 : e = 1
    · subst h1
      have hL : edgeLen surfs p 1 = (surfs.getD p ⟨0, 0⟩).Nctlu := by
        unfold edgeLen
        rw [if_pos (Or.inr rfl)]
      rw [if_pos rfl]
      exact hgrid _ _ (by rw [← hL]; exact hK) (by omega)
    · rw [if_neg h1]
      have hL : edgeLen surfs p e = (surfs.getD p ⟨0, 0⟩).Nctlv := by
        unfold edgeLen
        rw [if_neg (by omega)]
      by_cases h2 : e = 2
      · rw [if_pos h2]
        exact hgrid _ _ (by omega) (by rw [← hL]; exact hK)
      · rw [if_neg h2]
        exact hgrid _ _ (by omega) (by rw [← hL]; exact hK)

theorem allocMaster_inv {surfs : List Surf} {P : Nat × Nat × Nat → Prop}
    {st : GIState} (c : Nat × Nat × Nat)
    (hP : GIInv surfs P st) (hc : ¬ P c) :
    GIInv surfs (fun x => P x ∨ x = c) (allocMaster st c) := by
  obtain ⟨hlen, hone, hmem, hidx, hlast⟩ := hP
  refine ⟨?_, ?_, ?_, ?_, ?_⟩
  · simp [allocMaster, hlen]
  · rintro x (hx | rfl)
    · have hxc : x ≠ c := fun h => hc (h ▸ hx)
      show cellCount (st.global_coef ++ [[c]]) x = 1
      rw [cellCount_new]
      simp [hxc, hone x hx]
    · show cellCount (st.global_coef ++ [[x]]) x = 1
      rw [cellCount_new]
      have h0 : cellCount st.global_coef x = 0 :=
        cellCount_zero_of_entries _ _ (fun en hen hcen => hc (hmem en hen x hcen))
      simp [h0]
  · intro en hen x hx
    have hor : en ∈ st.global_coef ∨ en = [c] := by simpa [allocMaster] using hen
    rcases hor with h | h
    · exact Or.inl (hmem en h x hx)
    · subst h
      simp only [List.mem_singleton] at hx
      exact Or.inr hx
  · rintro x (hx | rfl)
    · show setGIdx st.gIdx c.1 c.2.1 c.2.2 st.counter x.1 x.2.1 x.2.2
        < st.counter + 1
      have hne : ¬(x.1 = c.1 ∧ x.2.1 = c.2.1 ∧ x.2.2 = c.2.2) := by
        intro hh
        exact hc (triple_eq_of_parts hh ▸ hx)
      rw [setGIdx_ne _ _ _ _ _ _ _ _ hne]
      exact Nat.lt_succ_of_lt (hidx x hx)
    · show setGIdx st.gIdx x.1 x.2.1 x.2.2 st.counter x.1 x.2.1 x.2.2
        < st.counter + 1
      rw [setGIdx_self]
      omega
  · intro p hp
    have hp' : st.lastPatchID = some p := hp
    have := hlast p hp'
    exact ⟨this.1, fun x hx => Or.inl (this.2 x hx)⟩

theorem appendAlias_inv {surfs : List Surf} {P : Nat × Nat × Nat → Prop}
    {st : GIState} (g : Nat) (c : Nat × Nat × Nat)
    (hP : GIInv surfs P st) (hc : ¬ P c) (hg : g < st.counter) :
    GIInv surfs (fun x => P x ∨ x = c) (appendAlias st g c) := by
  obtain ⟨hlen, hone, hmem, hidx, hlast⟩ := hP
  have hglen : g < st.global_coef.length := hlen ▸ hg
  refine ⟨?_, ?_, ?_, ?_, ?_⟩
  · simp [appendAlias, appendAt, hlen]
  · rintro x (hx | rfl)
    · have hxc : x ≠ c := fun h => hc (h ▸ hx)
      show cellCount (appendAt st.global_coef g c) x = 1
      rw [cellCount_appendAt _ _ _ hglen]
      simp [hxc, hone x hx]
    · show cellCount (appendAt st.global_coef g x) x = 1
      rw [cellCount_appendAt _ _ _ hglen]
      have h0 : cellCount st.global_coef x = 0 :=
        cellCount_zero_of_entries _ _ (fun en hen hcen => hc (hmem en hen x hcen))
      simp [h0]
  · intro en hen x hx
    rcases mem_entries_appendAt st.global_coef g c hen hx with ⟨en0, h1, h2⟩ | h
    · exact Or.inl (hmem en0 h1 x h2)
    · exact Or.inr h
  · rintro x (hx | rfl)
    · show setGIdx st.gIdx c.1 c.2.1 c.2.2 g x.1 x.2.1 x.2.2 < st.counter
      have hne : ¬(x.1 = c.1 ∧ x.2.1 = c.2.1 ∧ x.2.2 = c.2.2) := by
        intro hh
        exact hc (triple_eq_of_parts hh ▸ hx)
      rw [setGIdx_ne _ _ _ _ _ _ _ _ hne]
      exact hidx x hx
    · show setGIdx st.gIdx x.1 x.2.1 x.2.2 g x.1 x.2.1 x.2.2 < st.counter
      rw [setGIdx_self]
      exact hg
  · intro p hp
    have hp' : st.lastPatchID = some p := hp
    have := hlast p hp'
    exact ⟨this.1, fun x hx => Or.inl (this.2 x hx)⟩

theorem resolveSlave_inv {surfs : List Surf} {P : Nat × Nat × Nat → Prop}
    {st : GIState} (con : List EdgeRec) (hval : ValidCon surfs con)
    (f e : Nat) (r : EdgeRec) (idx : Nat) (c : Nat × Nat × Nat)
    (hfc : findConIndex con f e = some (r, false))
    (hP : GIInv surfs P st) (hc : ¬ P c)
    (hidxlt : idx < edgeLen surfs f e)
    (hpre : ∀ q, q < f → ∀ x ∈ surfCells surfs q, P x) :
    GIInv surfs (fun x => P x ∨ x = c) (resolveSlave surfs st r idx c) := by
  obtain ⟨hf1, hflt, hlen⟩ := slave_record_facts surfs con hval f e r hfc
  have hd := dims_pos surfs hval.1 r.f1 hf1
  have hgrid : ∀ a b, a < (surfs.getD r.f1 ⟨0, 0⟩).Nctlu →
      b < (surfs.getD r.f1 ⟨0, 0⟩).Nctlv → st.gIdx r.f1 a b < st.counter := by
    intro a b ha hb
    exact hP.hidx (r.f1, a, b)
      (hpre r.f1 hflt _ ((surfCells_mem surfs r.f1 (r.f1, a, b)).mpr ⟨rfl, ha, hb⟩))
  have hg : getGlobalIndexEdge (surfs.getD r.f1 ⟨0, 0⟩) (st.gIdx r.f1) r.e1 idx
      r.dir < st.counter :=
    getGlobalIndexEdge_lt surfs st r.f1 r.e1 idx r.dir hgrid hd.1 hd.2
      (by rw [hlen]; exact hidxlt)
  obtain ⟨h1, h2, h3, h4, h5⟩ := appendAlias_inv _ c hP hc hg
  refine ⟨h1, h2, h3, h4, ?_⟩
  intro p hp
  have hpr : r.f1 = p := by
    have : some r.f1 = some p := hp
    exact Option.some.inj this
  subst hpr
  exact ⟨hf1, fun x hx => Or.inl (hpre r.f1 hflt x hx)⟩

theorem resolveSlaveStale_inv {surfs : List Surf} {P : Nat × Nat × Nat → Prop}
    {st : GIState} (p : Nat) (r : EdgeRec) (c : Nat × Nat × Nat)
    (hdims : ∀ su ∈ surfs, 1 ≤ su.Nctlu ∧ 1 ≤ su.Nctlv)
    (hP : GIInv surfs P st) (hc : ¬ P c)
    (hlp : st.lastPatchID = some p) :
    GIInv surfs (fun x => P x ∨ x = c) (resolveSlaveStale surfs st p r 0 c) := by
  obtain ⟨hplen, hpcells⟩ := hP.hlast p hlp
  have hd := dims_pos surfs hdims p hplen
  have hgrid : ∀ a b, a < (surfs.getD p ⟨0, 0⟩).Nctlu →
      b < (surfs.getD p ⟨0, 0⟩).Nctlv → st.gIdx p a b < st.counter := by
    intro a b ha hb
    exact hP.hidx (p, a, b)
      (hpcells _ ((surfCells_mem surfs p (p, a, b)).mpr ⟨rfl, ha, hb⟩))
  have hg : getGlobalIndexEdge (surfs.getD p ⟨0, 0⟩) (st.gIdx p) r.e1 0 r.dir
      < st.counter :=
    getGlobalIndexEdge_lt surfs st p r.e1 0 r.dir hgrid hd.1 hd.2
      (edgeLen_pos surfs p r.e1 hd.1 hd.2)
  exact appendAlias_inv _ c hP hc hg

theorem processCell_inv (surfs : List Surf) (con : List EdgeRec)
    (hval : ValidCon surfs con) (P : Nat × Nat × Nat → Prop)
    (st st' : GIState) (isurf i j : Nat)
    (hs : isurf < surfs.length)
    (hi : i < (surfs.getD isurf ⟨0, 0⟩).Nctlu)
    (hj : j < (surfs.getD isurf ⟨0, 0⟩).Nctlv)
    (hfresh : ¬ P (isurf, i, j))
    (hpre : ∀ q, q < isurf → ∀ x ∈ surfCells surfs q, P x)
    (hP : GIInv surfs P st)
    (hstep : processCell surfs con isurf i j st = some st') :
    GIInv surfs (fun x => P x ∨ x = (isurf, i, j)) st' := by
  simp only [processCell] at hstep
  set Nu := (surfs.getD isurf ⟨0, 0⟩).Nctlu with hNu
  set Nv := (surfs.getD isurf ⟨0, 0⟩).Nctlv with hNv
  have hd := dims_pos surfs hval.1 isurf hs
  have he0 : edgeLen surfs isurf 0 = Nu := by
    unfold edgeLen
    rw [if_pos (Or.inl rfl)]
  have he1 : edgeLen surfs isurf 1 = Nu := by
    unfold edgeLen
    rw [if_pos (Or.inr rfl)]
  have he2 : edgeLen surfs isurf 2 = Nv := by
    unfold edgeLen
    rw [if_neg (by omega)]
  have he3 : edgeLen surfs isurf 3 = Nv := by
    unfold edgeLen
    rw [if_neg (by omega)]
  by_cases h1 : 0 < i ∧ i < Nu - 1 ∧ 0 < j ∧ j < Nv - 1
  · rw [if_pos h1] at hstep
    obtain rfl := Option.some.inj hstep
    exact allocMaster_inv _ hP hfresh
  rw [if_neg h1] at hstep
  by_cases h2 : 0 < i ∧ i < Nu - 1 ∧ j = 0
  · rw [if_pos h2] at hstep
    rcases hfc : findConIndex con isurf 0 with - | ⟨r, m⟩ <;> rw [hfc] at hstep
    · exact Option.noConfusion hstep
    cases m <;> simp only [Bool.false_eq_true, if_false, if_true] at hstep <;>
      obtain rfl := Option.some.inj hstep
    · exact resolveSlave_inv con hval isurf 0 r i _ hfc hP hfresh
        (by rw [he0]; exact hi) hpre
    · exact allocMaster_inv _ hP hfresh
  rw [if_neg h2] at hstep
  by_cases h3 : 0 < i ∧ i < Nu - 1 ∧ j = Nv - 1
  · rw [if_pos h3] at hstep
    rcases hfc : findConIndex con isurf 1 with - | ⟨r, m⟩ <;> rw [hfc] at hstep
    · exact Option.noConfusion hstep
    cases m <;> simp only [Bool.false_eq_true, if_false, if_true] at hstep <;>
      obtain rfl := Option.some.inj hstep
    · exact resolveSlave_inv con hval isurf 1 r i _ hfc hP hfresh
        (by rw [he1]; exact hi) hpre
    · exact allocMaster_inv _ hP hfresh
  rw [if_neg h3] at hstep
  by_cases h4 : i = 0 ∧ 0 < j ∧ j < Nv - 1
  · rw [if_pos h4] at hstep
    rcases hfc : findConIndex con isurf 2 with - | ⟨r, m⟩ <;> rw [hfc] at hstep
    · exact Option.noConfusion hstep
    cases m <;> simp only [Bool.false_eq_true, if_false, if_true] at hstep <;>
      obtain rfl := Option.some.inj hstep
    · exact resolveSlave_inv con hval isurf 2 r j _ hfc hP hfresh
        (by rw [he2]; exact hj) hpre
    · exact allocMaster_inv _ hP hfresh
  rw [if_neg h4] at hstep
  by_cases h5 : i = Nu - 1 ∧ 0 < j ∧ j < Nv - 1
  · rw [if_pos h5] at hstep
    rcases hfc : findConIndex con isurf 3 with - | ⟨r, m⟩ <;> rw [hfc] at hstep
    · exact Option.noConfusion hstep
    cases m <;> simp only [Bool.false_eq_true, if_false, if_true] at hstep <;>
      obtain rfl := Option.some.inj hstep
    · exact resolveSlave_inv con hval isurf 3 r j _ hfc hP hfresh
        (by rw [he3]; exact hj) hpre
    · exact allocMaster_inv _ hP hfresh
  rw [if_neg h5] at hstep
  by_cases h6 : i = 0 ∧ j = 0
  · rw [if_pos h6] at hstep
    rcases hfc1 : findConIndex con isurf 0 with - | ⟨r1, m1⟩ <;>
      rcases hfc2 : findConIndex con isurf 2 with - | ⟨r2, m2⟩ <;>
        rw [hfc1, hfc2] at hstep
    · exact Option.noConfusion hstep
    · exact Option.noConfusion hstep
    · exact Option.noConfusion hstep
    cases m1 <;> cases m2 <;> simp at hstep <;> subst hstep
    · exact resolveSlave_inv con hval isurf 0 r1 0 _ hfc1 hP hfresh
        (by rw [he0]; omega) hpre
    · exact resolveSlave_inv con hval isurf 0 r1 0 _ hfc1 hP hfresh
        (by rw [he0]; omega) hpre
    · exact resolveSlave_inv con hval isurf 2 r2 0 _ hfc2 hP hfresh
        (by rw [he2]; omega) hpre
    · exact allocMaster_inv _ hP hfresh
  rw [if_neg h6] at hstep
  by_cases h7 : i = Nu - 1 ∧ j = 0
  · rw [if_pos h7] at hstep
    rcases hfc1 : findConIndex con isurf 0 with - | ⟨r1, m1⟩ <;>
      rcases hfc2 : findConIndex con isurf 3 with - | ⟨r2, m2⟩ <;>
        rw [hfc1, hfc2] at hstep
    · exact Option.noConfusion hstep
    · exact Option.noConfusion hstep
    · exact Option.noConfusion hstep
    cases m1 <;> cases m2 <;> simp at hstep <;> subst hstep
    · exact resolveSlave_inv con hval isurf 0 r1 (Nu - 1) _ hfc1 hP hfresh
        (by rw [he0]; omega) hpre
    · exact resolveSlave_inv con hval isurf 0 r1 (Nu - 1) _ hfc1 hP hfresh
        (by rw [he0]; omega) hpre
    · exact resolveSlave_inv con hval isurf 3 r2 0 _ hfc2 hP hfresh
        (by rw [he3]; omega) hpre
    · exact allocMaster_inv _ hP hfresh
  rw [if_neg h7] at hstep
  by_cases h8 : i = 0 ∧ j = Nv - 1
  · rw [if_pos h8] at hstep
    rcases hfc1 : findConIndex con isurf 1 with - | ⟨r1, m1⟩ <;>
      rcases hfc2 : findConIndex con isurf 2 with - | ⟨r2, m2⟩ <;>
        rw [hfc1, hfc2] at hstep
    · exact Option.noConfusion hstep
    · exact Option.noConfusion hstep
    · exact Option.noConfusion hstep
    cases m1 <;> cases m2
    · simp only [Bool.false_eq_true, false_and, if_false, not_false_iff,
        if_true] at hstep
      rcases hlp : st.lastPatchID with - | p <;> rw [hlp] at hstep
      · exact Option.noConfusion hstep
      obtain rfl := Option.some.inj hstep
      exact resolveSlaveStale_inv p r1 _ hval.1 hP hfresh hlp
    · simp only [Bool.false_eq_true, false_and, if_false, not_false_iff,
        if_true] at hstep
      rcases hlp : st.lastPatchID with - | p <;> rw [hlp] at hstep
      · exact Option.noConfusion hstep
      obtain rfl := Option.some.inj hstep
      exact resolveSlaveStale_inv p r1 _ hval.1 hP hfresh hlp
    · simp at hstep
      subst hstep
      exact resolveSlave_inv con hval isurf 2 r2 (Nv - 1) _ hfc2 hP hfresh
        (by rw [he2]; omega) hpre
    · simp at hstep
      subst hstep
      exact allocMaster_inv _ hP hfresh
  rw [if_neg h8] at hstep
  by_cases h9 : i = Nu - 1 ∧ j = Nv - 1
  · rw [if_pos h9] at hstep
    rcases hfc1 : findConIndex con isurf 1 with - | ⟨r1, m1⟩ <;>
      rcases hfc2 : findConIndex con isurf 3 with - | ⟨r2, m2⟩ <;>
        rw [hfc1, hfc2] at hstep
    · exact Option.noConfusion hstep
    · exact Option.noConfusion hstep
    · exact Option.noConfusion hstep
    cases m1 <;> cases m2 <;> simp at hstep <;> subst hstep
    · exact resolveSlave_inv con hval isurf 1 r1 (Nu - 1) _ hfc1 hP hfresh
        (by rw [he1]; omega) hpre
    · exact resolveSlave_inv con hval isurf 1 r1 (Nu - 1) _ hfc1 hP hfresh
        (by rw [he1]; omega) hpre
    · exact resolveSlave_inv con hval isurf 3 r2 (Nv - 1) _ hfc2 hP hfresh
        (by rw [he3]; omega) hpre
    · exact allocMaster_inv _ hP hfresh
  exfalso
  omega

theorem processCells_inv (surfs : List Surf) (con : List EdgeRec)
    (hval : ValidCon surfs con) (isurf : Nat) (hs : isurf < surfs.length)
    (l : List (Nat × Nat × Nat)) :
    ∀ (P : Nat × Nat × Nat → Prop) (st st' : GIState),
    (∀ c ∈ l, c.1 = isurf ∧ c.2.1 < (surfs.getD isurf ⟨0, 0⟩).Nctlu ∧
      c.2.2 < (surfs.getD isurf ⟨0, 0⟩).Nctlv) →
    l.Nodup →
    (∀ c ∈ l, ¬ P c) →
    (∀ q, q < isurf → ∀ x ∈ surfCells surfs q, P x) →
    GIInv surfs P st →
    processCells surfs con l st = some st' →
    GIInv surfs (fun x => P x ∨ x ∈ l) st' := by
  induction l with
  | nil =>
    intro P st st' _ _ _ _ hP hstep
    obtain rfl := Option.some.inj hstep
    exact GIInv_congr (fun c => by simp) hP
  | cons c t ih =>
    intro P st st' hbound hnodup hfresh hpre hP hstep
    simp only [processCells] at hstep
    rcases hpc : processCell surfs con c.1 c.2.1 c.2.2 st with - | st1 <;>
      rw [hpc] at hstep
    · exact Option.noConfusion hstep
    have hstep' : processCells surfs con t st1 = some st' := hstep
    obtain ⟨hc1, hcu, hcv⟩ := hbound c (by simp)
    have h1 : GIInv surfs (fun x => P x ∨ x = c) st1 := by
      have := processCell_inv surfs con hval P st st1 c.1 c.2.1 c.2.2
        (hc1 ▸ hs) (by rw [hc1]; exact hcu) (by rw [hc1]; exact hcv)
        (hfresh c (by simp)) (fun q hq x hx => hpre q (by omega) x hx) hP hpc
      exact this
    have hcnot : c ∉ t := (List.nodup_cons.mp hnodup).1
    have h2 := ih (fun x => P x ∨ x = c) st1 st'
      (fun x hx => hbound x (by simp [hx]))
      (List.nodup_cons.mp hnodup).2
      (fun x hx => by
        rintro (hpx | rfl)
        · exact hfresh x (by simp [hx]) hpx
        · exact hcnot hx)
      (fun q hq x hx => Or.inl (hpre q hq x hx))
      h1 hstep'
    refine GIInv_congr (fun x => ?_) h2
    simp only [List.mem_cons]
    tauto

theorem processPatches_inv (surfs : List Surf) (con : List EdgeRec)
    (hval : ValidCon surfs con) (k : Nat) :
    ∀ (s : Nat) (st st' : GIState),
    s + k ≤ surfs.length →
    GIInv surfs (cellBelow surfs s) st →
    processPatches surfs con (List.range' s k) st = some st' →
    GIInv surfs (cellBelow surfs (s + k)) st' := by
  induction k with
  | zero =>
    intro s st st' hsk hP hstep
    obtain rfl := Option.some.inj hstep
    exact GIInv_congr (fun c => by rw [Nat.add_zero]) hP
  | succ k ihk =>
    intro s st st' hsk hP hstep
    rw [List.range'_succ] at hstep
    simp only [processPatches] at hstep
    rcases hpc : processCells surfs con (surfCells surfs s) st with - | st1 <;>
      rw [hpc] at hstep
    · exact Option.noConfusion hstep
    have hstep' : processPatches surfs con (List.range' (s + 1) k) st1
        = some st' := hstep
    have hsl : s < surfs.length := by omega
    have h1 := processCells_inv surfs con hval s hsl (surfCells surfs s)
      (cellBelow surfs s) st st1
      (fun c hc => (surfCells_mem surfs s c).mp hc)
      (surfCells_nodup surfs s)
      (fun c hc hbc => by
        have := ((surfCells_mem surfs s c).mp hc).1
        have := hbc.1
        omega)
      (fun q hq x hx => by
        obtain ⟨hx1, hxu, hxv⟩ := (surfCells_mem surfs q x).mp hx
        exact ⟨by omega, by rw [hx1]; exact hxu, by rw [hx1]; exact hxv⟩)
      hP hpc
    have h2 : GIInv surfs (cellBelow surfs (s + 1)) st1 := by
      refine GIInv_congr (fun c => ?_) h1
      rw [surfCells_mem]
      unfold cellBelow
      constructor
      · rintro (⟨hc1, hc2, hc3⟩ | ⟨hc1, hc2, hc3⟩)
        · exact ⟨by omega, hc2, hc3⟩
        · exact ⟨by omega, by rw [hc1]; exact hc2, by rw [hc1]; exact hc3⟩
      · rintro ⟨hc1, hc2, hc3⟩
        have : c.1 < s ∨ c.1 = s := by omega
        rcases this with h | h
        · exact Or.inl ⟨h, hc2, hc3⟩
        · exact Or.inr ⟨h, by rw [h] at hc2; exact hc2, by rw [h] at hc3; exact hc3⟩
    have h3 := ihk (s + 1) st1 st' (by omega) h2 hstep'
    refine GIInv_congr (fun c => ?_) h3
    rw [show s + 1 + k = s + (k + 1) by omega]

/-- C1: after `_setEdgeConnectivity` completes on a valid connectivity table,
every control-point cell `(p,i,j)` of every patch is contained in exactly one
`global_coef` entry, and the final DOF count `Ncoef` equals the number of
master allocations performed, i.e. the number of entries of `global_coef`. -/
theorem setEdgeConnectivity_alias_unique (surfs : List Surf) (con : List EdgeRec)
    (st : GIState) (hval : ValidCon surfs con)
    (hrun : setEdgeConnectivity surfs con = some st) :
    (∀ p i j, p < surfs.length → i < (surfs.getD p ⟨0, 0⟩).Nctlu →
      j < (surfs.getD p ⟨0, 0⟩).Nctlv →
      containCount st.global_coef (p, i, j) = 1) ∧
    st.Ncoef = st.global_coef.length := by
  have h0 : GIInv surfs (cellBelow surfs 0) GIState.init := by
    refine ⟨rfl, ?_, ?_, ?_, ?_⟩
    · intro c hc
      exact absurd hc.1 (by omega)
    · intro en hen
      simp [GIState.init] at hen
    · intro c hc
      exact absurd hc.1 (by omega)
    · intro p hp
      simp [GIState.init] at hp
  unfold setEdgeConnectivity at hrun
  rw [List.range_eq_range'] at hrun
  have hfin := processPatches_inv surfs con hval surfs.length 0 GIState.init st
    (by omega) h0 hrun
  constructor
  · intro p i j hp hi hj
    have hcell : cellBelow surfs (0 + surfs.length) (p, i, j) :=
      ⟨by omega, hi, hj⟩
    exact containCount_one_of_cellCount _ _ (hfin.hone _ hcell)
  · exact hfin.hlen

/-- Witness for C1 at the two-patch fixture: the hypotheses hold concretely and
the cell `(1,2,0)` of the slave edge lands in exactly one entry. -/
theorem setEdgeConnectivity_alias_unique_witness :
    ValidCon surfsTwo conTwo ∧
    setEdgeConnectivity surfsTwo conTwo = some stTwo ∧
    containCount stTwo.global_coef (1, 2, 0) = 1 ∧
    stTwo.Ncoef = stTwo.global_coef.length :=
  ⟨by decide, rfl,
    (setEdgeConnectivity_alias_unique surfsTwo conTwo stTwo (by decide) rfl).1
      1 2 0 (by decide) (by decide) (by decide),
    (setEdgeConnectivity_alias_unique surfsTwo conTwo stTwo (by decide) rfl).2⟩


end PyGeo
